import Mathlib

/-!
# Verification of the PRMate review service against its specification

This file gives a shallow embedding in Lean 4 of the parts of the PRMate
code base (a Go service that reviews GitHub pull requests) that the
specification's claims are about, and proves or refutes each claim.

Go strings are modelled as `List Char` (`GoStr`); the source only ever
manipulates ASCII markers, prefixes and line structure, so byte/rune
distinctions do not matter for any claim.  Go machine integers are modelled
as unbounded `Int`/`Nat`: no claim exercises integer overflow.

The embedded components:
* the unified-diff patch parser (`internal/github/client.go`:
  `ParsePatch`, `GetNewLineNumbers`), including a faithful model of the
  two `fmt.Sscanf` hunk-header formats with Go's partial-assignment
  behaviour;
* the review engine (`internal/review/service.go`: `ReviewPR`,
  `loadRules`, `filterFilesToReview`, `parseLLMResponse`, `postSummary`,
  `parseSummaryFromComment`, and their helpers), written over an oracle
  environment for the GitHub client, the LLM and the clock, and
  instrumented with an effect log of LLM calls and posted comments;
* JSON encoding/decoding for the review-summary and LLM-response
  schemas, modelling Go's `encoding/json` (HTML-escaping marshaller;
  the unmarshaller is modelled on the canonical documents the
  marshaller produces);
* the PR workspace manager (`internal/prworkspace`: `DeletePRDir`,
  `validateSafeDelete` and the `path/filepath` functions `Clean`,
  `Join`, `Rel` they rely on), over a filesystem oracle;
* the multi-repo rule merge (`internal/scanner/multirepo.go`) and the
  learned-rules deduplication (`internal/context/generator.go`);
* the bounded webhook queue (`internal/webhook`: `AsyncProcessor.Enqueue`)
  and the HTTP status mapping in `internal/handlers`.
-/

/-- Go strings, modelled as lists of characters. -/
abbrev GoStr := List Char

/-- Conversion from Lean string literals. -/
def gs (s : String) : GoStr := s.data

namespace GoModel

/-! ## Basic Go string operations -/

/-- Models `strings.HasPrefix`. -/
def hasPrefix (s pre : GoStr) : Bool := pre.isPrefixOf s

/-- Models `strings.HasSuffix`. -/
def hasSuffix (s suf : GoStr) : Bool := suf.isSuffixOf s

/-- Models `strings.TrimPrefix`. -/
def trimPrefix (s pre : GoStr) : GoStr :=
  if hasPrefix s pre then s.drop pre.length else s

/-- Models `strings.TrimSuffix`. -/
def trimSuffix (s suf : GoStr) : GoStr :=
  if hasSuffix s suf then s.take (s.length - suf.length) else s

/-- Go's `unicode.IsSpace` restricted to the ASCII whitespace characters
(the only ones appearing in the embedded inputs). -/
def isGoSpace (c : Char) : Bool :=
  c = ' ' || c = '\t' || c = '\n' || c = '\r' ||
  c = (Char.ofNat 11) || c = (Char.ofNat 12)

/-- Models `strings.TrimSpace`. -/
def trimSpace (s : GoStr) : GoStr :=
  ((s.dropWhile isGoSpace).reverse.dropWhile isGoSpace).reverse

/-- Models `strings.ToLower` (ASCII). -/
def toLower (s : GoStr) : GoStr := s.map Char.toLower

/-- Split a list on a separator character; models `strings.Split(s, sep)`
for a one-character separator (always returns at least one piece). -/
def splitChar (sep : Char) : GoStr → List GoStr
  | [] => [[]]
  | c :: rest =>
    let r := splitChar sep rest
    if c = sep then [] :: r
    else match r with
      | [] => [[c]]
      | h :: t => (c :: h) :: t

/-- Models `strings.Join` / `filepath` intercalation with a one-character
separator. -/
def joinChar (sep : Char) : List GoStr → GoStr
  | [] => []
  | [s] => s
  | s :: rest => s ++ sep :: joinChar sep rest

/-- First index of `pat` as a substring of `s`; models `strings.Index`
for a non-empty pattern. -/
def findSub (s pat : GoStr) : Option Nat :=
  if pat.isPrefixOf s then some 0
  else match s with
    | [] => none
    | _ :: t => (findSub t pat).map (· + 1)

/-- Models `strings.Contains`. -/
def containsSub (s pat : GoStr) : Bool := (findSub s pat).isSome

/-- Models `strings.Trim(s, "_")` for the single cut-character `'_'`. -/
def trimChar (cut : Char) (s : GoStr) : GoStr :=
  ((s.dropWhile (· = cut)).reverse.dropWhile (· = cut)).reverse

/-- Models `strings.ReplaceAll(s, old, new)` for one-character `old`/`new`. -/
def replaceAllChar (a b : Char) (s : GoStr) : GoStr :=
  s.map (fun c => if c = a then b else c)

/-- Models `strings.Replace(s, old, new, 1)`: replace the first occurrence only. -/
def replaceFirst (s old new : GoStr) : GoStr :=
  match findSub s old with
  | none => s
  | some i => s.take i ++ new ++ s.drop (i + old.length)

end GoModel

section PatchParser

open GoModel

/-! ## Patch parser (`internal/github/client.go`) -/

/-- Structure `PatchLine` from `internal/github`: one line of a hunk, tagged
`"add"`, `"remove"` or `"context"`. -/
structure PatchLine where
  tp : GoStr
  content : GoStr
  oldLineNo : Int
  newLineNo : Int
  diffPos : Int
  deriving Repr, DecidableEq

/-- Structure `PatchHunk` from `internal/github`. -/
structure PatchHunk where
  oldStart : Int
  oldLines : Int
  newStart : Int
  newLines : Int
  lines : List PatchLine
  deriving Repr, DecidableEq

/-- Result of scanning a hunk header with one `fmt.Sscanf` format:
the values assigned so far (in argument order; `none` = untouched) and
whether the whole format matched. -/
structure ScanResult where
  a : Option Int
  b : Option Int
  c : Option Int
  d : Option Int
  ok : Bool
  deriving Repr, DecidableEq

namespace HdrScan

/-- Consume one literal character (no space skipping), as `Sscanf` does
for non-space literals in the format. -/
def lit (c : Char) : GoStr → Option GoStr
  | x :: rest => if x = c then some rest else none
  | [] => none

/-- A space in an `Sscanf` format requires at least one space in the
input and then consumes the whole run. -/
def spaces1 : GoStr → Option GoStr
  | x :: rest => if isGoSpace x then some (rest.dropWhile isGoSpace) else none
  | [] => none

/-- Decimal digits folded into a value. -/
def digitsVal (ds : GoStr) : Nat :=
  ds.foldl (fun acc c => 10 * acc + (c.toNat - 48)) 0

/-- Verb `%d`: skip leading spaces, then an optional sign and at least one
decimal digit (maximal run). -/
def scanInt (s : GoStr) : Option (Int × GoStr) :=
  let s := s.dropWhile isGoSpace
  let (neg, s) := match s with
    | '-' :: rest => (true, rest)
    | '+' :: rest => (false, rest)
    | _ => (false, s)
  let ds := s.takeWhile Char.isDigit
  if ds = [] then none
  else
    let v : Int := (digitsVal ds : Nat)
    some (if neg then -v else v, s.drop ds.length)

/-- Models `fmt.Sscanf(line, "@@ -%d,%d +%d,%d @@", &a, &b, &c, &d)`:
arguments are assigned left to right until the first mismatch. -/
def scanLong (s : GoStr) : ScanResult := Id.run do
  let none4 : ScanResult := ⟨none, none, none, none, false⟩
  let some s := lit '@' s | return none4
  let some s := lit '@' s | return none4
  let some s := spaces1 s | return none4
  let some s := lit '-' s | return none4
  let some (a, s) := scanInt s | return none4
  let some s := lit ',' s | return ⟨some a, none, none, none, false⟩
  let some (b, s) := scanInt s | return ⟨some a, none, none, none, false⟩
  let some s := spaces1 s | return ⟨some a, some b, none, none, false⟩
  let some s := lit '+' s | return ⟨some a, some b, none, none, false⟩
  let some (c, s) := scanInt s | return ⟨some a, some b, none, none, false⟩
  let some s := lit ',' s | return ⟨some a, some b, some c, none, false⟩
  let some (d, s) := scanInt s | return ⟨some a, some b, some c, none, false⟩
  let some s := spaces1 s | return ⟨some a, some b, some c, some d, false⟩
  let some s := lit '@' s | return ⟨some a, some b, some c, some d, false⟩
  let some _ := lit '@' s | return ⟨some a, some b, some c, some d, false⟩
  return ⟨some a, some b, some c, some d, true⟩

/-- Models `fmt.Sscanf(line, "@@ -%d +%d @@", &a, &c)` (single-line hunk form);
only the two start fields are scanned. -/
def scanSingle (s : GoStr) : ScanResult := Id.run do
  let none4 : ScanResult := ⟨none, none, none, none, false⟩
  let some s := lit '@' s | return none4
  let some s := lit '@' s | return none4
  let some s := spaces1 s | return none4
  let some s := lit '-' s | return none4
  let some (a, s) := scanInt s | return none4
  let some s := spaces1 s | return ⟨some a, none, none, none, false⟩
  let some s := lit '+' s | return ⟨some a, none, none, none, false⟩
  let some (c, s) := scanInt s | return ⟨some a, none, none, none, false⟩
  let some s := spaces1 s | return ⟨some a, none, some c, none, false⟩
  let some s := lit '@' s | return ⟨some a, none, some c, none, false⟩
  let some _ := lit '@' s | return ⟨some a, none, some c, none, false⟩
  return ⟨some a, none, some c, none, true⟩

end HdrScan

/-- Build the hunk for a header line, mirroring the `@@` branch of
`ParsePatch`: try the long format; on failure try the single-line format
(partial assignments from both attempts persist) and default both line
counts to 1. -/
def parseHunkHeader (line : GoStr) : PatchHunk :=
  let r := HdrScan.scanLong line
  if r.ok then
    { oldStart := r.a.getD 0, oldLines := r.b.getD 0,
      newStart := r.c.getD 0, newLines := r.d.getD 0, lines := [] }
  else
    let r2 := HdrScan.scanSingle line
    { oldStart := r2.a.getD (r.a.getD 0),
      oldLines := 1,
      newStart := r2.c.getD (r.c.getD 0),
      newLines := 1,
      lines := [] }

/-- State threaded through `ParsePatch`'s loop. -/
structure ParseSt where
  hunks : List PatchHunk
  current : Option PatchHunk
  diffPos : Int
  oldLine : Int
  newLine : Int

/-- The body of `ParsePatch`'s `for` loop, over the remaining lines. -/
def parsePatchGo : List GoStr → ParseSt → List PatchHunk
  | [], st =>
    match st.current with
    | none => st.hunks
    | some h => st.hunks ++ [h]
  | line :: rest, st =>
    let diffPos := st.diffPos + 1
    if hasPrefix line (gs "@@") then
      let hunks := match st.current with
        | none => st.hunks
        | some h => st.hunks ++ [h]
      let hunk := parseHunkHeader line
      parsePatchGo rest
        { hunks := hunks, current := some hunk, diffPos := diffPos,
          oldLine := hunk.oldStart, newLine := hunk.newStart }
    else
      match st.current with
      | none => parsePatchGo rest { st with diffPos := diffPos }
      | some cur =>
        if hasPrefix line (gs "+") && !hasPrefix line (gs "+++") then
          let pl : PatchLine :=
            { tp := gs "add", content := line, oldLineNo := 0,
              newLineNo := st.newLine, diffPos := diffPos }
          parsePatchGo rest
            { st with current := some { cur with lines := cur.lines ++ [pl] },
                      diffPos := diffPos, newLine := st.newLine + 1 }
        else if hasPrefix line (gs "-") && !hasPrefix line (gs "---") then
          let pl : PatchLine :=
            { tp := gs "remove", content := line, oldLineNo := st.oldLine,
              newLineNo := 0, diffPos := diffPos }
          parsePatchGo rest
            { st with current := some { cur with lines := cur.lines ++ [pl] },
                      diffPos := diffPos, oldLine := st.oldLine + 1 }
        else
          let pl : PatchLine :=
            { tp := gs "context", content := line, oldLineNo := st.oldLine,
              newLineNo := st.newLine, diffPos := diffPos }
          parsePatchGo rest
            { st with current := some { cur with lines := cur.lines ++ [pl] },
                      diffPos := diffPos, oldLine := st.oldLine + 1,
                      newLine := st.newLine + 1 }

/-- Structure `ParsePatch` from `internal/github/client.go`. -/
def parsePatch (patch : GoStr) : List PatchHunk :=
  if patch = [] then []
  else parsePatchGo (GoModel.splitChar '\n' patch)
    { hunks := [], current := none, diffPos := 0, oldLine := 0, newLine := 0 }

/-- Structure `GetNewLineNumbers` from `internal/github/client.go`: the new-file
line numbers of all `add` lines. -/
def getNewLineNumbers (patch : GoStr) : List Int :=
  (parsePatch patch).foldl
    (fun acc h =>
      acc ++ (h.lines.filter (fun l => l.tp = gs "add")).map (·.newLineNo))
    []

end PatchParser

section Json

/-! ## JSON model (`encoding/json` as used by the review service)

The marshaller mirrors Go's `json.Marshal`: struct fields in declaration
order, strings escaped with the default HTML escaping (`<`, `>`, `&`
become `<`, `>`, `&`).  The unmarshaller is modelled on
the canonical documents this marshaller produces (fixed key order, no
interstitial whitespace), which is the only shape the round-trip claims
feed it.  `time.Time` values are represented by their serialized
RFC3339 text. -/

/-- Lowercase hex digit, as in `encoding/json`'s `hex` table. -/
def hexDigitChar (n : Nat) : Char :=
  Char.ofNat (if n < 10 then 48 + n else 87 + n)

/-- Hex digit value (accepts both cases, as Go's unmarshaller does). -/
def hexVal (c : Char) : Option Nat :=
  if '0' ≤ c ∧ c ≤ '9' then some (c.toNat - 48)
  else if 'a' ≤ c ∧ c ≤ 'f' then some (c.toNat - 87)
  else if 'A' ≤ c ∧ c ≤ 'F' then some (c.toNat - 55)
  else none

/-- Escape one character the way `json.Marshal` (with HTML escaping on)
renders it inside a string literal. -/
def escapeChar (c : Char) : GoStr :=
  if c = '"' then ['\\', '"']
  else if c = '\\' then ['\\', '\\']
  else if c = '\n' then ['\\', 'n']
  else if c = '\r' then ['\\', 'r']
  else if c = '\t' then ['\\', 't']
  else if c.toNat < 32 then
    ['\\', 'u', '0', '0', hexDigitChar (c.toNat / 16), hexDigitChar (c.toNat % 16)]
  else if c = '<' then gs "\\u003c"
  else if c = '>' then gs "\\u003e"
  else if c = '&' then gs "\\u0026"
  else if c = Char.ofNat 0x2028 then gs "\\u2028"
  else if c = Char.ofNat 0x2029 then gs "\\u2029"
  else [c]

/-- Escaped body of a JSON string literal. -/
def escapeStr (s : GoStr) : GoStr := (s.map escapeChar).flatten

/-- A marshalled JSON string literal. -/
def encStr (s : GoStr) : GoStr := '"' :: (escapeStr s ++ ['"'])

/-- Decimal digits of a natural number, fuel-structured so that it
reduces by computation; `fuel` only needs to exceed the value. -/
def natDigitsCore : Nat → Nat → GoStr → GoStr
  | 0, _, acc => acc
  | fuel + 1, n, acc =>
    if n < 10 then Char.ofNat (48 + n % 10) :: acc
    else natDigitsCore fuel (n / 10) (Char.ofNat (48 + n % 10) :: acc)

/-- Decimal digits of a natural number (`strconv`-style). -/
def natDigits (n : Nat) : GoStr := natDigitsCore (n + 1) n []

/-- Decimal rendering of a Go `int` (`strconv.Itoa`, `fmt` verb `%d`,
and `json.Marshal` of integers all use this form). -/
def goItoa (i : Int) : GoStr :=
  if i < 0 then '-' :: natDigits i.natAbs else natDigits i.toNat

/-- Decode four hex digits of a `\u` escape. -/
def decodeHex4 : GoStr → Option (Nat × GoStr)
  | h1 :: h2 :: h3 :: h4 :: rest =>
    match hexVal h1, hexVal h2, hexVal h3, hexVal h4 with
    | some a, some b, some c, some d => some (4096 * a + 256 * b + 16 * c + d, rest)
    | _, _, _, _ => none
  | _ => none

/-- Parse the body of a JSON string literal (after the opening quote),
accumulating decoded characters; models Go's unmarshalling of string
literals.  The fuel argument (one unit per decoded character) only makes
the recursion structural; `parseJStr` supplies enough. -/
def parseJStrBody : Nat → GoStr → GoStr → Option (GoStr × GoStr)
  | 0, _, _ => none
  | _ + 1, _, [] => none
  | fuel + 1, acc, c :: rest =>
    if c = '"' then some (acc.reverse, rest)
    else if c = '\\' then
      match rest with
      | [] => none
      | e :: rest2 =>
        if e = 'n' then parseJStrBody fuel ('\n' :: acc) rest2
        else if e = 'r' then parseJStrBody fuel ('\r' :: acc) rest2
        else if e = 't' then parseJStrBody fuel ('\t' :: acc) rest2
        else if e = '"' then parseJStrBody fuel ('"' :: acc) rest2
        else if e = '\\' then parseJStrBody fuel ('\\' :: acc) rest2
        else if e = '/' then parseJStrBody fuel ('/' :: acc) rest2
        else if e = 'b' then parseJStrBody fuel (Char.ofNat 8 :: acc) rest2
        else if e = 'f' then parseJStrBody fuel (Char.ofNat 12 :: acc) rest2
        else if e = 'u' then
          match decodeHex4 rest2 with
          | some (n, rest3) => parseJStrBody fuel (Char.ofNat n :: acc) rest3
          | none => none
        else none
    else parseJStrBody fuel (c :: acc) rest

/-- Parse a JSON string literal. -/
def parseJStr : GoStr → Option (GoStr × GoStr)
  | '"' :: rest => parseJStrBody (rest.length + 1) [] rest
  | _ => none

/-- Fold decimal digits into a value. -/
def decDigitsVal (ds : GoStr) : Nat :=
  ds.foldl (fun acc c => 10 * acc + (c.toNat - 48)) 0

/-- Parse a non-empty maximal run of decimal digits. -/
def parseJNat (s : GoStr) : Option (Nat × GoStr) :=
  let ds := s.takeWhile Char.isDigit
  if ds = [] then none else some (decDigitsVal ds, s.drop ds.length)

/-- Parse a JSON integer (optional minus sign, then digits). -/
def parseJInt (s : GoStr) : Option (Int × GoStr) :=
  match s with
  | '-' :: rest => (parseJNat rest).map (fun p => (-(p.1 : Int), p.2))
  | _ => (parseJNat s).map (fun p => ((p.1 : Int), p.2))

/-- Expect a literal token. -/
def expectL (tok s : GoStr) : Option GoStr :=
  if tok.isPrefixOf s then some (s.drop tok.length) else none

end Json

section ReviewTypes

/-! ## Review data model (`internal/review/types.go`) -/

/-- Structure `PRFile` from `internal/github`. -/
structure PRFile where
  filename : GoStr
  status : GoStr
  additions : Int
  deletions : Int
  patch : GoStr
  deriving Repr, DecidableEq

/-- Structure `ReviewRequest`. -/
structure ReviewRequest where
  owner : GoStr
  repo : GoStr
  prNumber : Int
  headSHA : GoStr
  headRef : GoStr
  baseSHA : GoStr
  deriving Repr, DecidableEq

/-- Structure `ReviewResult`. -/
structure ReviewResult where
  filesReviewed : Nat
  commentsPosted : Nat
  violationsFound : Nat
  summaryPosted : Bool
  reviewedCommit : GoStr
  deriving Repr, DecidableEq

/-- Structure `FileViolation`. -/
structure FileViolation where
  path : GoStr
  line : Int
  rule : GoStr
  message : GoStr
  severity : GoStr
  codeSnippet : GoStr := []
  deriving Repr, DecidableEq

/-- Structure `FileReviewStatus` (JSON keys `path`, `last_sha`, `violations`,
`reviewed_at`). -/
structure FileReviewStatus where
  path : GoStr
  lastSHA : GoStr
  violations : Int
  reviewedAt : GoStr
  deriving Repr, DecidableEq

/-- Structure `ReviewSummary` (JSON keys `version`, `last_reviewed_at`, `head_sha`,
`files_scanned`, `rules_applied`, `violations_found`); the `time.Time`
field is carried as its RFC3339 serialization. -/
structure ReviewSummary where
  version : GoStr
  lastReviewedAt : GoStr
  headSHA : GoStr
  filesScanned : List FileReviewStatus
  rulesApplied : Int
  violationsFound : Int
  deriving Repr, DecidableEq

/-- Structure `LLMViolation` (JSON keys `line`, `rule`, `message`, `severity`,
`fix`). -/
structure LLMViolation where
  line : Int
  rule : GoStr
  message : GoStr
  severity : GoStr
  fix : GoStr := []
  deriving Repr, DecidableEq

/-- Structure `LLMAnalysisResponse`. -/
structure LLMAnalysisResponse where
  violations : List LLMViolation
  summary : GoStr := []
  deriving Repr, DecidableEq

end ReviewTypes

section SummaryJson

/-! ## Marshal/unmarshal of `ReviewSummary` -/

/-- Models `json.Marshal` of one `FileReviewStatus`. -/
def encFileStatus (f : FileReviewStatus) : GoStr :=
  gs "\x7b\"path\":" ++ encStr f.path ++
  gs ",\"last_sha\":" ++ encStr f.lastSHA ++
  gs ",\"violations\":" ++ goItoa f.violations ++
  gs ",\"reviewed_at\":" ++ encStr f.reviewedAt ++ gs "\x7d"

/-- Models `json.Marshal` of a `[]FileReviewStatus` (the service always builds a
non-nil slice, so an empty slice marshals as `[]`). -/
def encFileStatuses (fs : List FileReviewStatus) : GoStr :=
  '[' :: (GoModel.joinChar ',' (fs.map encFileStatus) ++ [']'])

/-- Models `json.Marshal` of a `ReviewSummary`. -/
def encSummary (s : ReviewSummary) : GoStr :=
  gs "\x7b\"version\":" ++ encStr s.version ++
  gs ",\"last_reviewed_at\":" ++ encStr s.lastReviewedAt ++
  gs ",\"head_sha\":" ++ encStr s.headSHA ++
  gs ",\"files_scanned\":" ++ encFileStatuses s.filesScanned ++
  gs ",\"rules_applied\":" ++ goItoa s.rulesApplied ++
  gs ",\"violations_found\":" ++ goItoa s.violationsFound ++ gs "\x7d"

/-- Unmarshal one `FileReviewStatus` from its canonical document. -/
def decFileStatus (s : GoStr) : Option (FileReviewStatus × GoStr) := do
  let s ← expectL (gs "\x7b\"path\":") s
  let (path, s) ← parseJStr s
  let s ← expectL (gs ",\"last_sha\":") s
  let (lastSHA, s) ← parseJStr s
  let s ← expectL (gs ",\"violations\":") s
  let (violations, s) ← parseJInt s
  let s ← expectL (gs ",\"reviewed_at\":") s
  let (reviewedAt, s) ← parseJStr s
  let s ← expectL (gs "\x7d") s
  pure (⟨path, lastSHA, violations, reviewedAt⟩, s)

/-- Unmarshal the tail of a `FileReviewStatus` array after the first
element. -/
def decFileStatusesRest (fuel : Nat) (s : GoStr) :
    Option (List FileReviewStatus × GoStr) :=
  match fuel with
  | 0 => none
  | fuel + 1 =>
    match s with
    | ']' :: rest => some ([], rest)
    | ',' :: rest => do
      let (f, s) ← decFileStatus rest
      let (fs, s) ← decFileStatusesRest fuel s
      pure (f :: fs, s)
    | _ => none

/-- Unmarshal a `[]FileReviewStatus` from its canonical document. -/
def decFileStatuses (s : GoStr) : Option (List FileReviewStatus × GoStr) :=
  match s with
  | '[' :: ']' :: rest => some ([], rest)
  | '[' :: rest => do
    let (f, s) ← decFileStatus rest
    let (fs, s) ← decFileStatusesRest (s.length + 1) s
    pure (f :: fs, s)
  | _ => none

/-- Models `json.Unmarshal` into a `ReviewSummary`, on the canonical documents
produced by `encSummary`. -/
def decSummary (s : GoStr) : Option ReviewSummary := do
  let s ← expectL (gs "\x7b\"version\":") s
  let (version, s) ← parseJStr s
  let s ← expectL (gs ",\"last_reviewed_at\":") s
  let (lastReviewedAt, s) ← parseJStr s
  let s ← expectL (gs ",\"head_sha\":") s
  let (headSHA, s) ← parseJStr s
  let s ← expectL (gs ",\"files_scanned\":") s
  let (filesScanned, s) ← decFileStatuses s
  let s ← expectL (gs ",\"rules_applied\":") s
  let (rulesApplied, s) ← parseJInt s
  let s ← expectL (gs ",\"violations_found\":") s
  let (violationsFound, s) ← parseJInt s
  let s ← expectL (gs "\x7d") s
  if s = [] then
    pure ⟨version, lastReviewedAt, headSHA, filesScanned, rulesApplied,
          violationsFound⟩
  else none

/-- Unmarshal one `LLMViolation` from a canonical document (the shape the
prompt demands of the LLM; the `fix` key is optional). -/
def decLLMViolation (s : GoStr) : Option (LLMViolation × GoStr) := do
  let s ← expectL (gs "\x7b\"line\":") s
  let (line, s) ← parseJInt s
  let s ← expectL (gs ",\"rule\":") s
  let (rule, s) ← parseJStr s
  let s ← expectL (gs ",\"message\":") s
  let (message, s) ← parseJStr s
  let s ← expectL (gs ",\"severity\":") s
  let (severity, s) ← parseJStr s
  match expectL (gs ",\"fix\":") s with
  | some s2 => do
    let (fix, s3) ← parseJStr s2
    let s4 ← expectL (gs "\x7d") s3
    pure (⟨line, rule, message, severity, fix⟩, s4)
  | none => do
    let s2 ← expectL (gs "\x7d") s
    pure (⟨line, rule, message, severity, []⟩, s2)

/-- Unmarshal the tail of an `LLMViolation` array after the first
element. -/
def decLLMViolationsRest (fuel : Nat) (s : GoStr) :
    Option (List LLMViolation × GoStr) :=
  match fuel with
  | 0 => none
  | fuel + 1 =>
    match s with
    | ']' :: rest => some ([], rest)
    | ',' :: rest => do
      let (v, s) ← decLLMViolation rest
      let (vs, s) ← decLLMViolationsRest fuel s
      pure (v :: vs, s)
    | _ => none

/-- Models `json.Unmarshal` into an `LLMAnalysisResponse`, on the canonical
shape `{"violations":[...]}` (whitespace after the colon and between
elements tolerated). -/
def decLLMResponse (s : GoStr) : Option LLMAnalysisResponse := do
  let s ← expectL (gs "\x7b\"violations\":") s
  let s := s.dropWhile GoModel.isGoSpace
  match s with
  | '[' :: rest =>
    let rest := rest.dropWhile GoModel.isGoSpace
    match rest with
    | ']' :: rest2 =>
      let rest2 := rest2.dropWhile GoModel.isGoSpace
      let rest2 ← expectL (gs "\x7d") rest2
      if rest2.dropWhile GoModel.isGoSpace = [] then pure ⟨[], []⟩ else none
    | _ => do
      let (v, s2) ← decLLMViolation rest
      let (vs, s3) ← decLLMViolationsRest (s2.length + 1) s2
      let s4 ← expectL (gs "\x7d") (s3.dropWhile GoModel.isGoSpace)
      if s4.dropWhile GoModel.isGoSpace = [] then pure ⟨v :: vs, []⟩ else none
  | _ => none

end SummaryJson

section ReviewEngine

open GoModel

/-! ## Review engine (`internal/review/service.go`)

The GitHub client, the LLM provider and the clock are oracles collected
in `Env`.  The embedding additionally returns the list of observable
effects (LLM invocations, posted reviews, posted PR comments) that the
corresponding Go code performs through those interfaces.  A Go `panic`
(from slicing a too-short string) is a distinct outcome. -/

/-- Structure `markdownSection` from the review service. -/
structure MarkdownSection where
  title : GoStr
  content : GoStr
  level : Nat
  deriving Repr, DecidableEq

/-- Running state of `parseMarkdownSections`'s loop: sections emitted so
far, the open section, and its content builder. -/
def parseMarkdownSectionsGo :
    List GoStr → List MarkdownSection → Option (GoStr × Nat) → GoStr →
    List MarkdownSection
  | [], secs, cur, buf =>
    match cur with
    | none => secs
    | some (t, lv) => secs ++ [⟨t, trimSpace buf, lv⟩]
  | line :: rest, secs, cur, buf =>
    let trimmed := trimSpace line
    if hasPrefix trimmed (gs "#") then
      let secs := match cur with
        | none => secs
        | some (t, lv) => secs ++ [⟨t, trimSpace buf, lv⟩]
      let level := (trimmed.takeWhile (· = '#')).length
      let title := trimSpace (trimmed.dropWhile (· = '#'))
      parseMarkdownSectionsGo rest secs (some (title, level)) []
    else
      match cur with
      | none => parseMarkdownSectionsGo rest secs none buf
      | some _ => parseMarkdownSectionsGo rest secs cur (buf ++ line ++ ['\n'])

/-- Function `parseMarkdownSections` from the review service. -/
def parseMarkdownSections (content : GoStr) : List MarkdownSection :=
  parseMarkdownSectionsGo (splitChar '\n' content) [] none []

/-- Function `extractBulletPoints` from the review service. -/
def extractBulletPoints (content : GoStr) : List GoStr :=
  (splitChar '\n' content).foldl
    (fun rules line =>
      let trimmed := trimSpace line
      if hasPrefix trimmed (gs "- ") || hasPrefix trimmed (gs "* ") ||
         hasPrefix trimmed (gs "+ ") then
        let rule := trimPrefix trimmed (gs "- ")
        let rule := trimPrefix rule (gs "* ")
        let rule := trimPrefix rule (gs "+ ")
        let rule := trimSpace rule
        if rule.length > 10 then rules ++ [rule] else rules
      else rules)
    []

/-- Character class of the Go regexp whitespace escape inside the
checkbox pattern: tab, newline, form feed, carriage return and space
(vertical tab is not in it). -/
def goRegexWs (c : Char) : Bool :=
  c = '\t' || c = '\n' || c = '\x0C' || c = '\r' || c = ' '

/-- Backtracking of the greedy whitespace run followed by the capture
group in the checkbox pattern: `k` starts at the length of the maximal
whitespace run after the box and is given back one character at a time
until the dot-plus capture can take at least one non-newline character;
the capture then extends greedily to the next newline or the end.
Returns the capture and the remainder after the match. -/
def checklistCapAt (tail : GoStr) : Nat → Option (GoStr × GoStr)
  | 0 =>
    match tail with
    | c :: _ =>
      if c = '\n' then none
      else some (tail.takeWhile (· ≠ '\n'), tail.dropWhile (· ≠ '\n'))
    | [] => none
  | k + 1 =>
    match tail.drop (k + 1) with
    | c :: _ =>
      if c = '\n' then checklistCapAt tail k
      else some ((tail.drop (k + 1)).takeWhile (· ≠ '\n'),
                 (tail.drop (k + 1)).dropWhile (· ≠ '\n'))
    | [] => checklistCapAt tail k

/-- Scanner for all non-overlapping leftmost matches of the checkbox
regular expression over the whole content, the way Go's
`FindAllStringSubmatch` produces them: a dash, a greedy whitespace run
(which may cross newlines), a `[ ]` or `[x]` box, a greedy whitespace
run, then a nonempty non-newline capture.  A failed attempt resumes the
scan one character after the dash; a successful match resumes it right
after the capture.  The fuel argument only makes the recursion
structural; one unit per consumed character is enough. -/
def checklistScan : Nat → GoStr → List GoStr
  | 0, _ => []
  | _, [] => []
  | fuel + 1, c :: rest =>
    if c = '-' then
      match rest.dropWhile goRegexWs with
      | '[' :: m :: ']' :: tail =>
        if m = ' ' || m = 'x' then
          match checklistCapAt tail (tail.takeWhile goRegexWs).length with
          | some (cap, rest2) => cap :: checklistScan fuel rest2
          | none => checklistScan fuel rest
        else checklistScan fuel rest
      | _ => checklistScan fuel rest
    else checklistScan fuel rest

/-- Function `extractChecklistItems` from the review service: the
checkbox captures found by the regular expression over the whole
content, keeping those longer than five characters, trimmed. -/
def extractChecklistItems (content : GoStr) : List GoStr :=
  (checklistScan (content.length + 1) content).foldl
    (fun items cap =>
      if cap.length > 5 then items ++ [trimSpace cap] else items)
    []

/-- Pure part of `loadRules`: route the markdown sections of `.prmate.md`
into rules, checklist items and codebase info. -/
def loadRulesPure (content : GoStr) : List GoStr × List GoStr × GoStr :=
  (parseMarkdownSections content).foldl
    (fun acc sec =>
      let (rules, checklist, info) := acc
      let titleLower := toLower sec.title
      let checklist :=
        if containsSub titleLower (gs "checklist") ||
           containsSub titleLower (gs "review") then
          checklist ++ extractChecklistItems sec.content
        else checklist
      let rules :=
        if containsSub titleLower (gs "rule") ||
           containsSub titleLower (gs "convention") then
          rules ++ extractBulletPoints sec.content
        else rules
      let info :=
        if containsSub titleLower (gs "structure") ||
           containsSub titleLower (gs "abstraction") ||
           containsSub titleLower (gs "naming") ||
           containsSub titleLower (gs "error") then
          info ++ gs "\n## " ++ sec.title ++ gs "\n" ++ sec.content ++ gs "\n"
        else info
      (rules, checklist, info))
    ([], [], [])

/-- The literal `summaryMarkerPrefix`. -/
def summaryMarkerPre : GoStr := gs "<!-- prmate-review-summary:"

/-- The literal opening of the trailing data block. -/
def dataMarker : GoStr := gs "<!-- prmate-data:"

/-- Function `parseSummaryFromComment` from the review service. -/
def parseSummaryFromComment (comment : GoStr) : Except GoStr ReviewSummary :=
  match findSub comment dataMarker with
  | none => .error (gs "no summary data found")
  | some idx =>
    let start := idx + dataMarker.length
    match findSub (comment.drop start) (gs " -->") with
    | none => .error (gs "malformed summary data")
    | some e =>
      match decSummary ((comment.drop start).take e) with
      | none => .error (gs "parse summary json")
      | some s => .ok s

/-- Structure `DraftReviewComment` from `internal/github`. -/
structure DraftReviewComment where
  path : GoStr
  line : Int
  side : GoStr
  body : GoStr
  deriving Repr, DecidableEq

/-- Observable effects of the review service through its interfaces. -/
inductive Effect
  | llmCall (prompt : GoStr)
  | postedReview (owner repo : GoStr) (prNumber : Int)
      (commitID event body : GoStr) (comments : List DraftReviewComment)
  | postedComment (owner repo : GoStr) (prNumber : Int) (body : GoStr)
  deriving Repr, DecidableEq

/-- Oracle environment: GitHub client, LLM provider and clock. -/
structure Env where
  getFileContent : GoStr → GoStr → GoStr → GoStr → Except GoStr GoStr
  getPRFiles : GoStr → GoStr → Int → Except GoStr (List PRFile)
  listPRComments : GoStr → GoStr → Int → Except GoStr (List GoStr)
  createReview : GoStr → GoStr → Int → GoStr → GoStr → GoStr →
      List DraftReviewComment → Except GoStr Unit
  createPRComment : GoStr → GoStr → Int → GoStr → Except GoStr Unit
  generateText : GoStr → Except GoStr GoStr
  nowRFC3339 : GoStr
  nowJson : GoStr

/-- Outcome of running a Go function that can also panic. -/
inductive GoOutcome (α : Type) where
  | ok (a : α)
  | err (e : GoStr)
  | panic
  deriving Repr, DecidableEq

/-- Go string slicing `s[:n]`, which panics when the string is shorter
than `n`. -/
def goSliceTo (s : GoStr) (n : Nat) : Option GoStr :=
  if n ≤ s.length then some (s.take n) else none

/-- Function `loadRules` from the review service. -/
def loadRules (env : Env) (owner repo ref : GoStr) :
    Except GoStr (List GoStr × List GoStr × GoStr) :=
  match env.getFileContent owner repo (gs ".prmate.md") ref with
  | .error e => .error (gs "get .prmate.md: " ++ e)
  | .ok content => .ok (loadRulesPure content)

/-- Function `getPreviousSummary` from the review service: the latest
comment containing the summary marker, parsed. -/
def getPreviousSummary (env : Env) (owner repo : GoStr) (prNumber : Int) :
    Except GoStr (Option ReviewSummary) :=
  match env.listPRComments owner repo prNumber with
  | .error e => .error e
  | .ok comments =>
    match comments.reverse.find? (fun c => containsSub c summaryMarkerPre) with
    | none => .ok none
    | some c =>
      match parseSummaryFromComment c with
      | .error e => .error e
      | .ok s => .ok (some s)

/-- Last-write-wins lookup modelling the Go map built by
`filterFilesToReview` from the previous summary's file list. -/
def lookupLastSHA (fs : List FileReviewStatus) (p : GoStr) : Option GoStr :=
  (fs.reverse.find? (fun f => f.path = p)).map (·.lastSHA)

/-- Function `filterFilesToReview` from the review service. -/
def filterFilesToReview (files : List PRFile) (previousSummary : Option ReviewSummary)
    (currentSHA : GoStr) : List PRFile :=
  match previousSummary with
  | none => files
  | some ps =>
    files.filter (fun file =>
      match lookupLastSHA ps.filesScanned file.filename with
      | none => true
      | some lastSHA => lastSHA ≠ currentSHA || file.patch ≠ [])

/-- Function `getFileExtension` from the review service. -/
def getFileExtension (path : GoStr) : GoStr :=
  let rev := path.reverse
  let pre := rev.takeWhile (fun c => c ≠ '.' && c ≠ '/')
  match rev.drop pre.length with
  | '.' :: _ => '.' :: pre.reverse
  | _ => []

/-- Function `getDirectory` from the review service. -/
def getDirectory (path : GoStr) : GoStr :=
  let rev := path.reverse
  let pre := rev.takeWhile (· ≠ '/')
  if pre.length = rev.length then [] else (rev.drop (pre.length + 1)).reverse

/-- Function `resolveRelativePath` from the review service. -/
def resolveRelativePath (baseDir : GoStr) : GoStr → GoStr
  | '.' :: '/' :: r => baseDir ++ '/' :: r
  | '.' :: '.' :: '/' :: r =>
    let parentDir := getDirectory baseDir
    if parentDir = [] then [] else resolveRelativePath parentDir r
  | rel => baseDir ++ '/' :: rel

/-- Models `strings.Trim` for a cutset given as a character predicate. -/
def trimAny (cut : Char → Bool) (s : GoStr) : GoStr :=
  ((s.dropWhile cut).reverse.dropWhile cut).reverse

/-- Inner part of `extractGoImports`: from the `/`-separated parts of
an import path, emit candidate files from the first `internal`/`pkg`
component on (the Go loop `break`s after the first hit). -/
def goImportCandidates : List GoStr → List GoStr
  | [] => []
  | part :: rest =>
    if part = gs "internal" || part = gs "pkg" then
      let localPath := joinChar '/' (part :: rest)
      if hasSuffix localPath (gs "/") then
        [localPath ++ gs ".go", localPath ++ gs "types.go"]
      else
        [localPath ++ gs ".go", localPath ++ gs "/types.go",
         localPath ++ gs "/service.go"]
    else goImportCandidates rest

/-- Function `extractGoImports` from the review service. -/
def extractGoImports (content currentFile : GoStr) : List GoStr :=
  let step := fun (st : Bool × List GoStr) (line : GoStr) =>
    let (inImport, deps) := st
    let trimmed := trimSpace line
    if hasPrefix trimmed (gs "import \"") || hasPrefix trimmed (gs "import `") then
      (inImport, deps)
    else if trimmed = gs "import (" then (true, deps)
    else if inImport && trimmed = gs ")" then (false, deps)
    else if inImport then
      let trimmed := trimAny (fun c => c = '\t' || c = ' ' || c = '"' || c = '\'' || c = '`') trimmed
      if trimmed = [] || hasPrefix trimmed (gs "//") then (inImport, deps)
      else if containsSub trimmed (gs "/internal/") || containsSub trimmed (gs "/pkg/") then
        (inImport, deps ++ goImportCandidates (splitChar '/' trimmed))
      else (inImport, deps)
    else (inImport, deps)
  let deps := ((splitChar '\n' content).foldl step (false, [])).2
  let dir := getDirectory currentFile
  if dir ≠ [] then deps ++ [dir ++ gs "/types.go"] else deps

/-- Function `extractJSImports` from the review service. -/
def extractJSImports (content currentFile : GoStr) : List GoStr :=
  let dir := getDirectory currentFile
  (splitChar '\n' content).foldl
    (fun deps line =>
      let trimmed := trimSpace line
      if containsSub trimmed (gs "from '") || containsSub trimmed (gs "from \"") then
        match findSub trimmed (gs "from ") with
        | none => deps
        | some start =>
          let rest := trimmed.drop (start + 5)
          let rest := trimAny (fun c => c = '\'' || c = '"' || c = ';') rest
          if hasPrefix rest (gs "./") || hasPrefix rest (gs "../") then
            let resolved := resolveRelativePath dir rest
            if resolved ≠ [] then
              deps ++ [resolved ++ gs ".ts", resolved ++ gs ".tsx",
                       resolved ++ gs ".js", resolved ++ gs "/index.ts"]
            else deps
          else deps
      else deps)
    []

/-- Models `strings.Fields`. -/
def goFields (s : GoStr) : List GoStr :=
  ((splitChar ' ' (s.map (fun c => if isGoSpace c then ' ' else c))).filter (· ≠ []))

/-- Function `extractPythonImports` from the review service. -/
def extractPythonImports (content currentFile : GoStr) : List GoStr :=
  let dir := getDirectory currentFile
  (splitChar '\n' content).foldl
    (fun deps line =>
      let trimmed := trimSpace line
      if hasPrefix trimmed (gs "from .") then
        match goFields trimmed with
        | _ :: module :: _ =>
          if hasPrefix module (gs ".") then
            let module := module.dropWhile (· = '.')
            let module := replaceAllChar '.' '/' module
            deps ++ [dir ++ gs "/" ++ module ++ gs ".py"]
          else deps
        | _ => deps
      else deps)
    []

/-- Fetch loop of `gatherDependencyContext`: at most `maxDeps` files,
truncated to 3000 characters. -/
def gatherDepsLoop (env : Env) (req : ReviewRequest) :
    List GoStr → Nat → GoStr → GoStr
  | [], _, sb => sb
  | depPath :: rest, fetchedCount, sb =>
    if fetchedCount ≥ 5 then sb
    else
      match env.getFileContent req.owner req.repo depPath req.headRef with
      | .error _ => gatherDepsLoop env req rest fetchedCount sb
      | .ok content =>
        let content :=
          if content.length > 3000 then
            content.take 3000 ++ gs "\n// ... (truncated)"
          else content
        gatherDepsLoop env req rest (fetchedCount + 1)
          (sb ++ gs "\n### " ++ depPath ++ gs "\n```\n" ++ content ++ gs "\n```\n")

/-- Function `gatherDependencyContext` from the review service. -/
def gatherDependencyContext (env : Env) (req : ReviewRequest)
    (filePath fileContent : GoStr) : GoStr :=
  if fileContent = [] then []
  else
    let ext := getFileExtension filePath
    let dependencies :=
      if ext = gs ".go" then extractGoImports fileContent filePath
      else if ext = gs ".ts" || ext = gs ".tsx" || ext = gs ".js" ||
              ext = gs ".jsx" then extractJSImports fileContent filePath
      else if ext = gs ".py" then extractPythonImports fileContent filePath
      else []
    if dependencies = [] then []
    else gatherDepsLoop env req dependencies 0 []

/-- Function `buildAnalysisPrompt` from the review service. -/
def buildAnalysisPrompt (filePath fileContent patch : GoStr)
    (rules checklist : List GoStr) (codebaseInfo dependencyContext : GoStr) :
    GoStr :=
  gs "You are a senior code reviewer. Analyze the following code changes and identify any violations of the project's coding standards.\n\n" ++
  gs "## Project Rules and Conventions\n" ++
  ((rules.enum.map (fun p =>
      goItoa ((p.1 : Int) + 1) ++ gs ". " ++ p.2 ++ gs "\n")).flatten) ++
  (if checklist.length > 0 then
    gs "\n## Review Checklist\n" ++
    (checklist.map (fun item => gs "- [ ] " ++ item ++ gs "\n")).flatten
   else []) ++
  (if codebaseInfo ≠ [] then gs "\n## Codebase Context\n" ++ codebaseInfo else []) ++
  (if dependencyContext ≠ [] then
    gs "\n## Related Files (Dependencies/Interfaces)\n" ++
    gs "Use this context to understand types, interfaces, and patterns the changed code should follow:\n" ++
    dependencyContext
   else []) ++
  gs "\n## File Being Reviewed: " ++ filePath ++ gs "\n" ++
  (if patch ≠ [] then gs "\n### Changes (Diff)\n```diff\n" ++ patch ++ gs "\n```\n" else []) ++
  (if fileContent ≠ [] && fileContent.length < 10000 then
    gs "\n### Full File Content\n```\n" ++ fileContent ++ gs "\n```\n"
   else []) ++
  gs "\n## Response Format\nRespond with a JSON object containing violations found. Only report violations for ADDED or MODIFIED lines (lines starting with + in the diff).\nIf no violations are found, return \x7b\"violations\": []\x7d.\n\nExample response:\n\x7b\"violations\": [\x7b\"line\": 42, \"rule\": \"Error Handling\", \"message\": \"Error not wrapped with context\", \"severity\": \"warning\", \"fix\": \"Use fmt.Errorf(\\\"context: %w\\\", err)\"\x7d]\x7d\n\nImportant:\n- Only flag clear violations, not style preferences\n- Line numbers should reference the NEW file line numbers (from lines starting with +)\n- Be specific about what rule is violated and how to fix it\n- Severity: \"error\" for breaking issues, \"warning\" for best practices, \"suggestion\" for improvements\n- Check that the code correctly implements interfaces and follows patterns from the dependency context\n\nRespond with ONLY the JSON, no additional text.\n"

/-- Function `parseLLMResponse` from the review service: trim code
fences, unmarshal, and drop violations whose line is not among the
patch's added lines (unless that set is empty). -/
def parseLLMResponse (response filePath patch : GoStr) : List FileViolation :=
  let response := trimSpace response
  let response := trimPrefix response (gs "```json")
  let response := trimPrefix response (gs "```")
  let response := trimSuffix response (gs "```")
  let response := trimSpace response
  match decLLMResponse response with
  | none => []
  | some llmResp =>
    let validLines := getNewLineNumbers patch
    (llmResp.violations.filter
        (fun v => !(!validLines.contains v.line && validLines ≠ []))).map
      (fun v =>
        { path := filePath, line := v.line, rule := v.rule,
          message := v.message, severity := v.severity })

/-- Function `analyzeFile` from the review service. -/
def analyzeFile (env : Env) (req : ReviewRequest) (file : PRFile)
    (rules checklist : List GoStr) (codebaseInfo : GoStr) :
    Except GoStr (List FileViolation) × List Effect :=
  let fileContent :=
    if file.additions + file.deletions < 500 then
      match env.getFileContent req.owner req.repo file.filename req.headRef with
      | .ok content => content
      | .error _ => []
    else []
  let dependencyContext := gatherDependencyContext env req file.filename fileContent
  let prompt := buildAnalysisPrompt file.filename fileContent file.patch rules
    checklist codebaseInfo dependencyContext
  match env.generateText prompt with
  | .error e => (.error (gs "llm analysis: " ++ e), [.llmCall prompt])
  | .ok response =>
    (.ok (parseLLMResponse response file.filename file.patch), [.llmCall prompt])

/-- The per-file loop of `ReviewPR` (step 5): skip removed files, analyze
the rest, accumulate violations and file statuses. -/
def reviewLoop (env : Env) (req : ReviewRequest)
    (rules checklist : List GoStr) (codebaseInfo : GoStr) :
    List PRFile → List FileViolation × List FileReviewStatus × List Effect
  | [] => ([], [], [])
  | file :: rest =>
    if file.status = gs "removed" then
      reviewLoop env req rules checklist codebaseInfo rest
    else
      match analyzeFile env req file rules checklist codebaseInfo with
      | (.error _, eff) =>
        let (v, st, e) := reviewLoop env req rules checklist codebaseInfo rest
        (v, st, eff ++ e)
      | (.ok violations, eff) =>
        let (v, st, e) := reviewLoop env req rules checklist codebaseInfo rest
        (violations ++ v,
         { path := file.filename, lastSHA := req.headSHA,
           violations := (violations.length : Int),
           reviewedAt := env.nowRFC3339 } :: st,
         eff ++ e)

/-- Function `postReviewComments` from the review service. -/
def postReviewComments (env : Env) (req : ReviewRequest)
    (violations : List FileViolation) : Except GoStr Nat × List Effect :=
  if violations = [] then (.ok 0, [])
  else
    let comments := violations.map (fun v =>
      let emoji :=
        if v.severity = gs "error" then gs "❌"
        else if v.severity = gs "suggestion" then gs "💡"
        else gs "⚠️"
      ({ path := v.path, line := v.line, side := gs "RIGHT",
         body := emoji ++ gs " **" ++ v.rule ++ gs "**: " ++ v.message }
        : DraftReviewComment))
    let reviewBody := gs "🔍 **PRMate Review** - Found " ++
      goItoa (violations.length : Int) ++ gs " issue(s) to address."
    let event :=
      if violations.any (fun v => v.severity = gs "error") then
        gs "REQUEST_CHANGES"
      else gs "COMMENT"
    let eff := [Effect.postedReview req.owner req.repo req.prNumber req.headSHA
      event reviewBody comments]
    match env.createReview req.owner req.repo req.prNumber req.headSHA event
        reviewBody comments with
    | .error e => (.error e, eff)
    | .ok _ => (.ok comments.length, eff)

/-- The human-readable part of the summary comment (everything before the
trailing data block), given the already-sliced short SHA. -/
def renderSummaryPrefix (req : ReviewRequest) (summary : ReviewSummary)
    (short : GoStr) : GoStr :=
  summaryMarkerPre ++ req.headSHA ++ gs " -->\n" ++
  gs "## 📊 PRMate Review Summary\n\n" ++
  gs "| Metric | Value |\n|--------|-------|\n" ++
  gs "| Files Reviewed | " ++ goItoa (summary.filesScanned.length : Int) ++ gs " |\n" ++
  gs "| Rules Applied | " ++ goItoa summary.rulesApplied ++ gs " |\n" ++
  gs "| Issues Found | " ++ goItoa summary.violationsFound ++ gs " |\n" ++
  gs "| Commit | `" ++ short ++ gs "` |\n" ++
  (if summary.filesScanned.length > 0 then
    gs "\n<details>\n<summary>Files Reviewed</summary>\n\n" ++
    (summary.filesScanned.map (fun f =>
      gs "- `" ++ f.path ++ gs "` " ++
      (if f.violations > 0 then
        gs "⚠️ " ++ goItoa f.violations ++ gs " issue(s)"
       else gs "✅") ++ gs "\n")).flatten ++
    gs "</details>\n"
   else []) ++
  gs "\n"

/-- The full body of the summary comment built by `postSummary`, `none`
when building it panics on the short-SHA slice. -/
def renderSummaryBody (req : ReviewRequest) (summary : ReviewSummary) :
    Option GoStr :=
  (goSliceTo summary.headSHA 7).map (fun short =>
    renderSummaryPrefix req summary short ++ dataMarker ++
    encSummary summary ++ gs " -->")

/-- Function `postSummary` from the review service. -/
def postSummary (env : Env) (req : ReviewRequest) (summary : ReviewSummary) :
    GoOutcome Unit × List Effect :=
  match renderSummaryBody req summary with
  | none => (.panic, [])
  | some body =>
    match env.createPRComment req.owner req.repo req.prNumber body with
    | .error e =>
      (.err e, [.postedComment req.owner req.repo req.prNumber body])
    | .ok _ =>
      (.ok (), [.postedComment req.owner req.repo req.prNumber body])

/-- Function `ReviewPR` from the review service. -/
def reviewPR (env : Env) (req : ReviewRequest) :
    GoOutcome ReviewResult × List Effect :=
  match goSliceTo req.headSHA 7 with
  | none => (.panic, [])
  | some _ =>
    match loadRules env req.owner req.repo req.headRef with
    | .error e => (.err (gs "load rules: " ++ e), [])
    | .ok (rules, checklist, codebaseInfo) =>
      if rules = [] && checklist = [] then
        (.ok { filesReviewed := 0, commentsPosted := 0, violationsFound := 0,
               summaryPosted := false, reviewedCommit := req.headSHA }, [])
      else
        let previousSummary :=
          match getPreviousSummary env req.owner req.repo req.prNumber with
          | .error _ => none
          | .ok v => v
        match env.getPRFiles req.owner req.repo req.prNumber with
        | .error e => (.err (gs "get pr files: " ++ e), [])
        | .ok files =>
          let filesToReview := filterFilesToReview files previousSummary req.headSHA
          let (allViolations, fileStatuses, eff1) :=
            reviewLoop env req rules checklist codebaseInfo filesToReview
          let (commentsPosted, eff2) :=
            if allViolations ≠ [] then
              match postReviewComments env req allViolations with
              | (.error _, e) => (0, e)
              | (.ok n, e) => (n, e)
            else (0, [])
          let summary : ReviewSummary :=
            { version := gs "1.0", lastReviewedAt := env.nowJson,
              headSHA := req.headSHA, filesScanned := fileStatuses,
              rulesApplied := ((rules.length + checklist.length : Nat) : Int),
              violationsFound := (allViolations.length : Int) }
          match postSummary env req summary with
          | (.panic, eff3) => (.panic, eff1 ++ eff2 ++ eff3)
          | (_, eff3) =>
            (.ok { filesReviewed := filesToReview.length,
                   commentsPosted := commentsPosted,
                   violationsFound := allViolations.length,
                   summaryPosted := true, reviewedCommit := req.headSHA },
             eff1 ++ eff2 ++ eff3)

end ReviewEngine

section Workspace

open GoModel

/-! ## Workspace manager (`internal/prworkspace/manager.go`)

Filesystem state (`os.Stat`, `filepath.EvalSymlinks`, the working
directory behind `filepath.Abs`) is an oracle; the path functions
`filepath.Clean`, `Join` and `Rel` are implemented concretely (Unix
separator).  `os.RemoveAll` is modelled as succeeding, and the removed
path is reported alongside the result; the per-PR mutex is irrelevant to
the sequential claims and is not modelled. -/

/-- Result of an `os.Stat` oracle call. -/
inductive StatRes where
  | found
  | notExist
  | errOther (msg : GoStr)
  deriving Repr, DecidableEq

/-- Result of a `filepath.EvalSymlinks` oracle call. -/
inductive EvalRes where
  | resolved (p : GoStr)
  | notExist
  | errOther (msg : GoStr)
  deriving Repr, DecidableEq

/-- Filesystem oracle for the workspace manager. -/
structure FSOracle where
  stat : GoStr → StatRes
  evalSymlinks : GoStr → EvalRes
  absOf : GoStr → GoStr

/-- One step of `filepath.Clean`'s element processing. -/
def cleanStep (rooted : Bool) (out : List GoStr) (seg : GoStr) : List GoStr :=
  if seg = [] || seg = gs "." then out
  else if seg = gs ".." then
    match out.getLast? with
    | some l =>
      if l = gs ".." then out ++ [seg]
      else out.dropLast
    | none => if rooted then out else [seg]
  else out ++ [seg]

/-- Models `path/filepath.Clean` (Unix separator). -/
def goClean (p : GoStr) : GoStr :=
  if p = [] then gs "."
  else
    let rooted := p.head? = some '/'
    let segs := splitChar '/' p
    let out := segs.foldl (cleanStep rooted) []
    let body := joinChar '/' out
    if rooted then '/' :: body
    else if body = [] then gs "."
    else body

/-- Models `path/filepath.Join` (Unix separator): skip leading empty
elements, join the remainder, and clean. -/
def goJoin (elems : List GoStr) : GoStr :=
  match elems.dropWhile (· = []) with
  | [] => []
  | es => goClean (joinChar '/' es)

/-- Segments of a cleaned path, for `Rel`'s element walk. -/
def pathSegsOf (cleaned : GoStr) : List GoStr :=
  if cleaned = gs "." then []
  else (splitChar '/' cleaned).filter (· ≠ [])

/-- Drop the longest common prefix of two segment lists. -/
def dropCommonPre : List GoStr → List GoStr → List GoStr × List GoStr
  | a :: as, b :: bs =>
    if a = b then dropCommonPre as bs else (a :: as, b :: bs)
  | as, bs => (as, bs)

/-- Models `path/filepath.Rel` (Unix separator, volume-free paths):
clean both, compare rootedness, walk off the common elements, and build
a `..`-prefixed relative path; fails when rootedness differs or the
first differing base element is `..`. -/
def goRel (basep targp : GoStr) : Except GoStr GoStr :=
  let base := goClean basep
  let targ := goClean targp
  if targ = base then .ok (gs ".")
  else
    let baseSlashed := base.head? = some '/'
    let targSlashed := targ.head? = some '/'
    if baseSlashed ≠ targSlashed then
      .error (gs "Rel: can't make " ++ targp ++ gs " relative to " ++ basep)
    else
      let (restBase, restTarg) := dropCommonPre (pathSegsOf base) (pathSegsOf targ)
      if restBase.head? = some (gs "..") then
        .error (gs "Rel: can't make " ++ targp ++ gs " relative to " ++ basep)
      else
        .ok (joinChar '/' (List.replicate restBase.length (gs "..") ++ restTarg))

/-- Function `sanitizePathSegment` from the workspace manager. -/
def sanitizePathSegment (seg : GoStr) : GoStr :=
  let seg := trimSpace seg
  let seg := replaceAllChar '\\' '_' seg
  let seg := replaceAllChar '/' '_' seg
  let seg := replaceAllChar (Char.ofNat 0) '_' seg
  let seg := seg.map (fun r =>
    if ('a' ≤ r && r ≤ 'z') || ('A' ≤ r && r ≤ 'Z') ||
       ('0' ≤ r && r ≤ '9') || r = '-' || r = '_' || r = '.' then r
    else '_')
  trimChar '_' seg

/-- Function `sanitizeRepoFullName` from the workspace manager: returns
the joined relative path and the lock key. -/
def sanitizeRepoFullName (repoFullName : GoStr) :
    Except GoStr (GoStr × GoStr) :=
  let repoFullName := trimSpace repoFullName
  match splitChar '/' repoFullName with
  | [ownerRaw, repoRaw] =>
    let owner := sanitizePathSegment ownerRaw
    let repo := sanitizePathSegment repoRaw
    if owner = [] || repo = [] || owner = gs "." || owner = gs ".." ||
       repo = gs "." || repo = gs ".." then
      .error (gs "invalid repo full name")
    else .ok (goJoin [owner, repo], owner ++ gs "/" ++ repo)
  | _ => .error (gs "invalid repo full name")

/-- Function `normalizeBaseDir` from the workspace manager. -/
def normalizeBaseDir (fs : FSOracle) (baseDir : GoStr) : Except GoStr GoStr :=
  if trimSpace baseDir = [] then .error (gs "work base dir is empty")
  else
    let abs := goClean (fs.absOf baseDir)
    if abs = gs "/" then .error (gs "work base dir cannot be filesystem root")
    else .ok abs

/-- Function `prDirPath` from the workspace manager (the lock key is
dropped: locking is not modelled). -/
def prDirPath (fs : FSOracle) (baseDirCfg repoFullName : GoStr)
    (prNumber : Int) : Except GoStr GoStr :=
  match normalizeBaseDir fs baseDirCfg with
  | .error e => .error e
  | .ok baseDir =>
    match sanitizeRepoFullName repoFullName with
    | .error e => .error e
    | .ok (repoPath, _) =>
      .ok (goJoin [baseDir, repoPath, gs "pr-" ++ goItoa prNumber])

/-- Function `validateSafeDelete` from the workspace manager. -/
def validateSafeDelete (fs : FSOracle) (baseDirCfg targetDir : GoStr) :
    Except GoStr Unit :=
  match normalizeBaseDir fs baseDirCfg with
  | .error e => .error e
  | .ok baseDir =>
    match fs.evalSymlinks baseDir with
    | .notExist => .error (gs "resolve work base dir")
    | .errOther _ => .error (gs "resolve work base dir")
    | .resolved br =>
      let baseReal := goClean br
      match fs.evalSymlinks targetDir with
      | .notExist => .ok ()
      | .errOther _ => .error (gs "resolve pr workspace dir")
      | .resolved tr =>
        let targetReal := goClean tr
        if targetReal = baseReal then
          .error (gs "refusing to delete base dir")
        else
          match goRel baseReal targetReal with
          | .error _ => .error (gs "rel path")
          | .ok rel =>
            if rel = gs "." || hasPrefix rel (gs "../") || rel = gs ".." then
              .error (gs "refusing to delete: outside base dir")
            else .ok ()

/-- Function `DeletePRDir` from the workspace manager; the second
component is the path removed by `os.RemoveAll`, if any. -/
def deletePRDir (fs : FSOracle) (baseDirCfg repoFullName : GoStr)
    (prNumber : Int) : Except GoStr Unit × Option GoStr :=
  if prNumber ≤ 0 then (.error (gs "invalid pr number"), none)
  else
    match prDirPath fs baseDirCfg repoFullName prNumber with
    | .error e => (.error e, none)
    | .ok prDir =>
      match fs.stat prDir with
      | .notExist => (.ok (), none)
      | .errOther _ => (.error (gs "stat pr workspace dir"), none)
      | .found =>
        match validateSafeDelete fs baseDirCfg prDir with
        | .error e => (.error e, none)
        | .ok _ =>
          match fs.stat (goJoin [prDir, gs ".prmate-workdir"]) with
          | .notExist =>
            (.error (gs "refusing to delete: missing .prmate-workdir"), none)
          | .errOther _ => (.error (gs "stat sentinel"), none)
          | .found => (.ok (), some prDir)

end Workspace

section MultiRepo

open GoModel

/-! ## Multi-repo rule merge (`internal/scanner/multirepo.go`) and
learned-rules rendering (`internal/context/generator.go`) -/

/-- External repository data as far as the rule merge is concerned: the
extraction result of its instruction files, and whether
`scanExternalRepo` recorded an error for it. -/
structure ExternalRules where
  hasError : Bool
  rules : List GoStr
  deriving Repr, DecidableEq

/-- The `MergedRules` accumulation of `ScanWithExternals`: current-repo
rules first, then each error-free external's rules in order. -/
def scanMergeRules (currentRules : List GoStr)
    (externals : List ExternalRules) : List GoStr :=
  externals.foldl
    (fun merged ext => if ext.hasError then merged else merged ++ ext.rules)
    currentRules

/-- Normalization used by `writeLearnedRules`:
`strings.ToLower(strings.TrimSpace(rule))`. -/
def ruleNorm (rule : GoStr) : GoStr := toLower (trimSpace rule)

/-- The deduplication loop of `writeLearnedRules` (`seen` is the set of
normalizations already kept). -/
def dedupLearnedGo (seen : List GoStr) : List GoStr → List GoStr
  | [] => []
  | rule :: rest =>
    let normalized := ruleNorm rule
    if !seen.contains normalized && rule.length > 0 then
      rule :: dedupLearnedGo (normalized :: seen) rest
    else dedupLearnedGo seen rest

/-- The unique rule list rendered by `writeLearnedRules`. -/
def dedupLearnedRules (rules : List GoStr) : List GoStr :=
  dedupLearnedGo [] rules

end MultiRepo

section WebhookQueue

/-! ## Bounded webhook queue (`internal/webhook/async.go`) and its HTTP
mapping (`internal/handlers/handlers.go`) -/

/-- A queued webhook job. -/
structure WebhookJob where
  eventType : GoStr
  payload : List UInt8
  deliveryID : GoStr
  deriving Repr, DecidableEq

/-- State of an `AsyncProcessor` as far as `Enqueue` is concerned: the
buffered channel (capacity and pending jobs) and whether the processor is
nil. -/
structure QueueState where
  processorNil : Bool
  capacity : Nat
  jobs : List WebhookJob
  deriving Repr, DecidableEq

/-- Configuration defaulting in `NewAsyncProcessor`. -/
def newQueueState (processorNil : Bool) (queueSize : Int) : QueueState :=
  { processorNil := processorNil,
    capacity := if queueSize ≤ 0 then 100 else queueSize.toNat,
    jobs := [] }

/-- Function `AsyncProcessor.Enqueue`: copy the payload and attempt a
non-blocking send on the bounded channel. -/
def enqueue (st : QueueState) (eventType : GoStr) (payload : List UInt8)
    (deliveryID : GoStr) : Except GoStr Unit × QueueState :=
  if st.processorNil then (.error (gs "webhook processor is nil"), st)
  else if st.jobs.length < st.capacity then
    (.ok (), { st with jobs := st.jobs ++ [⟨eventType, payload, deliveryID⟩] })
  else (.error (gs "webhook queue full"), st)

/-- The HTTP status the webhook handler responds with as a function of
the enqueue result (`handlers.go`: 503 on error, 202 on success). -/
def webhookStatusOfEnqueue (r : Except GoStr Unit) : Nat :=
  match r with
  | .error _ => 503
  | .ok _ => 202

end WebhookQueue

section AuxDefs

open GoModel

/-! ## Auxiliary predicates and concrete fixtures used by the theorems -/

/-- Count of `add`-or-`context` lines (the lines that carry a new-file
line number). -/
def countAC (ls : List PatchLine) : Int :=
  ((ls.filter (fun l => l.tp ≠ gs "remove")).length : Int)

/-- Count of `remove`-or-`context` lines (the lines that carry an
old-file line number). -/
def countRC (ls : List PatchLine) : Int :=
  ((ls.filter (fun l => l.tp ≠ gs "add")).length : Int)

/-- Numbering invariant of a parsed hunk: `add`/`context` lines are
numbered consecutively from `new_start`, and `remove`/`context` lines
consecutively from `old_start`. -/
def hunkNumbered (h : PatchHunk) : Prop :=
  ∀ i (hi : i < h.lines.length),
    ((h.lines.get ⟨i, hi⟩).tp ≠ gs "remove" →
      (h.lines.get ⟨i, hi⟩).newLineNo = h.newStart + countAC (h.lines.take i)) ∧
    ((h.lines.get ⟨i, hi⟩).tp ≠ gs "add" →
      (h.lines.get ⟨i, hi⟩).oldLineNo = h.oldStart + countRC (h.lines.take i))

/-- An environment whose GitHub and LLM calls all fail; used as a
concrete witness input. -/
def envW : Env :=
  { getFileContent := fun _ _ _ _ => .error (gs "unavailable")
    getPRFiles := fun _ _ _ => .error (gs "unavailable")
    listPRComments := fun _ _ _ => .error (gs "unavailable")
    createReview := fun _ _ _ _ _ _ _ => .ok ()
    createPRComment := fun _ _ _ _ => .ok ()
    generateText := fun _ => .error (gs "unavailable")
    nowRFC3339 := gs "2024-01-01T00:00:00Z"
    nowJson := gs "2024-01-01T00:00:00Z" }

/-- An environment serving a `.prmate.md` that has a header but no
bullets or checkboxes (the Go test fixture for the no-rules case). -/
def envNoRules : Env :=
  { envW with
    getFileContent := fun _ _ _ _ =>
      .ok (gs "# PRMate Context\n\nEmpty file with no rules.") }

/-- A concrete review request with a full-length head SHA. -/
def reqW : ReviewRequest :=
  { owner := gs "test", repo := gs "repo", prNumber := 1,
    headSHA := gs "abc123def456789", headRef := gs "feature-branch",
    baseSHA := gs "base" }

/-- A concrete review request whose head SHA is shorter than 7 bytes. -/
def reqShort : ReviewRequest :=
  { owner := gs "o", repo := gs "r", prNumber := 1, headSHA := gs "abc",
    headRef := gs "br", baseSHA := gs "b" }

/-- A summary whose head SHA is shorter than 7 bytes. -/
def sumShort : ReviewSummary :=
  { version := gs "1.0", lastReviewedAt := gs "2024-01-01T00:00:00Z",
    headSHA := gs "abc", filesScanned := [], rulesApplied := 1,
    violationsFound := 0 }

/-- A small concrete summary used as a round-trip witness. -/
def sumW : ReviewSummary :=
  { version := gs "1.0", lastReviewedAt := gs "2024-01-01T00:00:00Z",
    headSHA := gs "abc123def456789", filesScanned :=
      [{ path := gs "main.go", lastSHA := gs "abc123def456789",
         violations := 1, reviewedAt := gs "2024-01-01T00:00:00Z" }],
    rulesApplied := 5, violationsFound := 2 }

/-- Filesystem oracle for the deletion counterexample: the PR directory
exists but resolves to a sibling directory whose final component begins
with two dots. -/
def fsCE : FSOracle :=
  { stat := fun _ => .found
    evalSymlinks := fun p =>
      if p = gs "/b" then .resolved (gs "/b") else .resolved (gs "/b/..d")
    absOf := id }

/-- Filesystem oracle where no path exists. -/
def fsAbsent : FSOracle :=
  { stat := fun _ => .notExist
    evalSymlinks := fun _ => .notExist
    absOf := id }

/-- Filesystem oracle for an authorized deletion: every path exists and
resolves to itself. -/
def fsOK : FSOracle :=
  { stat := fun _ => .found
    evalSymlinks := fun p => .resolved p
    absOf := id }

/-- A concrete removed file. -/
def fRem : PRFile :=
  { filename := gs "gone.go", status := gs "removed", additions := 1,
    deletions := 1, patch := gs "@@ -1 +1 @@" }

/-- The hunk that `parsePatch` produces for `"@@ -3,0 +4 @@\n+x"`. -/
def hunkC7 : PatchHunk :=
  { oldStart := 3, oldLines := 1, newStart := 4, newLines := 1,
    lines := [{ tp := gs "add", content := gs "+x", oldLineNo := 0,
                newLineNo := 4, diffPos := 2 }] }

/-- The queue state of a freshly constructed processor with capacity 1. -/
def queueW : QueueState := newQueueState false 1

/-- A full queue of capacity 1. -/
def queueFullW : QueueState :=
  { processorNil := false, capacity := 1,
    jobs := [{ eventType := gs "ping", payload := [], deliveryID := gs "d1" }] }

end AuxDefs

section Theorems

open GoModel

/-! ## Helper lemmas -/

/-- Each line starting with `@@` contributes exactly one hunk to the
parser's output. -/
theorem parsePatchGo_length (lines : List GoStr) : ∀ st : ParseSt,
    (parsePatchGo lines st).length =
      st.hunks.length + (if st.current.isSome then 1 else 0) +
        (lines.filter (fun l => hasPrefix l (gs "@@"))).length := by
  induction lines with
  | nil =>
    intro st
    cases h : st.current <;> simp [parsePatchGo, h]
  | cons line rest ih =>
    intro st
    by_cases hh : hasPrefix line (gs "@@")
    · cases h : st.current <;>
        simp [parsePatchGo, hh, h, ih, List.filter_cons] <;> omega
    · cases h : st.current
      · simp [parsePatchGo, hh, h, ih, List.filter_cons]
      · simp only [parsePatchGo, hh, h, List.filter_cons]
        split_ifs <;> simp_all [ih, List.filter_cons]

/-! ## Claim C9: bounded non-blocking enqueue and its HTTP mapping -/

/-- C9: for every event, payload and delivery id (on a processor whose
inner processor is configured), `Enqueue` stores a copy of the payload
and performs a non-blocking push onto the bounded queue: if the queue is
not full the job is appended and `nil` is returned (handler: 202), and
if it is full a "queue full" error is returned with the queue unchanged,
which the webhook handler maps to HTTP 503. -/
theorem claim9_enqueue_backpressure (st : QueueState) (et : GoStr)
    (payload : List UInt8) (did : GoStr) (hp : st.processorNil = false) :
    (st.jobs.length < st.capacity →
      enqueue st et payload did =
        (.ok (), { st with jobs := st.jobs ++ [⟨et, payload, did⟩] }) ∧
      webhookStatusOfEnqueue (enqueue st et payload did).1 = 202) ∧
    (¬ st.jobs.length < st.capacity →
      enqueue st et payload did = (.error (gs "webhook queue full"), st) ∧
      webhookStatusOfEnqueue (enqueue st et payload did).1 = 503) := by
  constructor <;> intro h <;> simp [enqueue, webhookStatusOfEnqueue, hp, h]

/-- Witness for C9 at concrete queues: a push on a non-full queue of
capacity 1 succeeds, and a push on a full one reports 503. -/
theorem claim9_enqueue_backpressure_witness :
    (enqueue queueW (gs "ping") [] (gs "d") =
      (.ok (), { queueW with
        jobs := [{ eventType := gs "ping", payload := [], deliveryID := gs "d" }] }) ∧
     webhookStatusOfEnqueue (enqueue queueW (gs "ping") [] (gs "d")).1 = 202) ∧
    (enqueue queueFullW (gs "ping") [] (gs "d") =
      (.error (gs "webhook queue full"), queueFullW) ∧
     webhookStatusOfEnqueue (enqueue queueFullW (gs "ping") [] (gs "d")).1 = 503) :=
  ⟨(claim9_enqueue_backpressure queueW (gs "ping") [] (gs "d") rfl).1 (by decide),
   (claim9_enqueue_backpressure queueFullW (gs "ping") [] (gs "d") rfl).2 (by decide)⟩

/-! ## Claim C5: file filtering and skipping of removed files -/

/-- C5: with no prior summary every file is selected; with a prior
summary a file is selected exactly when it was never reviewed, its prior
SHA differs from the current head SHA, or its patch is non-empty; and
removed files are never analyzed by the per-file loop. -/
theorem claim5_filter_files :
    (∀ (files : List PRFile) (sha : GoStr),
      filterFilesToReview files none sha = files) ∧
    (∀ (files : List PRFile) (ps : ReviewSummary) (sha : GoStr) (f : PRFile),
      f ∈ filterFilesToReview files (some ps) sha ↔
        f ∈ files ∧
          (lookupLastSHA ps.filesScanned f.filename = none ∨
           ∃ last, lookupLastSHA ps.filesScanned f.filename = some last ∧
             (last ≠ sha ∨ f.patch ≠ []))) ∧
    (∀ (env : Env) (req : ReviewRequest) (rules checklist : List GoStr)
        (info : GoStr) (file : PRFile) (rest : List PRFile),
      file.status = gs "removed" →
      reviewLoop env req rules checklist info (file :: rest) =
        reviewLoop env req rules checklist info rest) := by
  refine ⟨fun files sha => rfl, fun files ps sha f => ?_, ?_⟩
  · rw [filterFilesToReview, List.mem_filter]
    cases h : lookupLastSHA ps.filesScanned f.filename <;> simp [h]
  · intro env req rules checklist info file rest h
    simp [reviewLoop, h]

/-- Witness for C5: the loop really skips a concrete removed file. -/
theorem claim5_filter_files_witness :
    reviewLoop envW reqW [] [] [] [fRem] = reviewLoop envW reqW [] [] [] [] :=
  claim5_filter_files.2.2 envW reqW [] [] [] fRem [] rfl

/-! ## Claim C10: short head SHA panics -/

/-- C10: a review request whose head SHA is shorter than 7 bytes makes
`ReviewPR` panic on the slice `HeadSHA[:7]` in its very first statement
(so it never returns an error value), and the same slice in `postSummary`
panics before any comment is posted. -/
theorem claim10_short_sha_panics :
    (∀ (env : Env) (req : ReviewRequest), req.headSHA.length < 7 →
      reviewPR env req = (.panic, [])) ∧
    (∀ (env : Env) (req : ReviewRequest) (summary : ReviewSummary),
      summary.headSHA.length < 7 → postSummary env req summary = (.panic, [])) := by
  refine ⟨fun env req h => ?_, fun env req s h => ?_⟩
  · have h7 : ¬ 7 ≤ req.headSHA.length := by omega
    simp [reviewPR, goSliceTo, h7]
  · have h7 : ¬ 7 ≤ s.headSHA.length := by omega
    simp [postSummary, renderSummaryBody, goSliceTo, h7]

/-- Witness for C10 at a concrete 3-byte SHA. -/
theorem claim10_short_sha_panics_witness :
    reviewPR envW reqShort = (.panic, []) ∧
    postSummary envW reqShort sumShort = (.panic, []) :=
  ⟨claim10_short_sha_panics.1 envW reqShort (by decide),
   claim10_short_sha_panics.2 envW reqShort sumShort (by decide)⟩

/-! ## Claim C6: malformed hunk headers -/

/-- C6 counterexample: a header matching neither `Sscanf` format is not
skipped — the parser still emits a hunk for it, with both line counts
defaulted to 1 and starts left at 0, and attaches the following lines to
it. -/
theorem claim6_counterexample :
    (HdrScan.scanLong (gs "@@ bad @@")).ok = false ∧
    (HdrScan.scanSingle (gs "@@ bad @@")).ok = false ∧
    parsePatch (gs "@@ bad @@\n+x") =
      [{ oldStart := 0, oldLines := 1, newStart := 0, newLines := 1,
         lines := [{ tp := gs "add", content := gs "+x", oldLineNo := 0,
                     newLineNo := 0, diffPos := 2 }] }] := by
  decide

/-- C6 amended: a malformed hunk header still yields a hunk (with
`old_lines`/`new_lines` defaulted to 1), and processing continues —
every `@@`-prefixed line of a non-empty patch produces exactly one
hunk. -/
theorem claim6_amended :
    (∀ patch : GoStr, patch ≠ [] →
      (parsePatch patch).length =
        ((splitChar '\n' patch).filter (fun l => hasPrefix l (gs "@@"))).length) ∧
    (∀ line : GoStr, (HdrScan.scanLong line).ok = false →
      (parseHunkHeader line).oldLines = 1 ∧ (parseHunkHeader line).newLines = 1) := by
  constructor
  · intro patch h
    simp [parsePatch, h, parsePatchGo_length]
  · intro line h
    simp [parseHunkHeader, h]

/-- Witness for C6 at the malformed two-hunk patch: both hunks are kept. -/
theorem claim6_amended_witness :
    (parsePatch (gs "@@ bad @@\n+x\n@@ -1,2 +3,4 @@\n+y")).length =
      ((splitChar '\n' (gs "@@ bad @@\n+x\n@@ -1,2 +3,4 @@\n+y")).filter
        (fun l => hasPrefix l (gs "@@"))).length :=
  claim6_amended.1 (gs "@@ bad @@\n+x\n@@ -1,2 +3,4 @@\n+y") (by decide)

/-! ## Claim C1: surviving violations anchor to added lines -/

/-- C1 counterexample: for a non-empty deletion-only patch the added-line
set is empty, and a violation on line 42 survives response validation
even though 42 is not an added line of the patch — the escape hatch is an
empty added-line set, not an empty patch. -/
theorem claim1_counterexample :
    gs "@@ -1,2 +1,1 @@\n-x" ≠ [] ∧
    getNewLineNumbers (gs "@@ -1,2 +1,1 @@\n-x") = [] ∧
    parseLLMResponse
      (gs "\x7b\"violations\":[\x7b\"line\":42,\"rule\":\"r\",\"message\":\"m\",\"severity\":\"warning\"\x7d]\x7d")
      (gs "a.go") (gs "@@ -1,2 +1,1 @@\n-x") =
      [{ path := gs "a.go", line := 42, rule := gs "r", message := gs "m",
         severity := gs "warning", codeSnippet := [] }] := by
  decide

/-- C1 amended: every violation that survives `parseLLMResponse` has a
line number in the set of added new-file line numbers extracted from the
patch, unless that set is empty (in particular when the patch is
empty). -/
theorem claim1_amended : ∀ (response filePath patch : GoStr) (v : FileViolation),
    v ∈ parseLLMResponse response filePath patch →
    getNewLineNumbers patch ≠ [] →
    v.line ∈ getNewLineNumbers patch := by
  intro response filePath patch v hv hne
  simp only [parseLLMResponse] at hv
  split at hv
  · exact absurd hv (by simp)
  · rcases List.mem_map.mp hv with ⟨w, hw, rfl⟩
    have hp := (List.mem_filter.mp hw).2
    simp only [Bool.not_eq_true', Bool.and_eq_false_iff, Bool.not_eq_false,
      Bool.not_eq_true, decide_eq_false_iff_not, ne_eq, Decidable.not_not] at hp
    rcases hp with hc | hnil
    · simp only [Bool.not_eq_false'] at hc
      exact List.mem_of_elem_eq_true hc
    · exact absurd hnil hne

/-- Witness for C1 on a patch with added line 4 and a violation on
line 4 that survives validation. -/
theorem claim1_amended_witness :
    ({ path := gs "h.go", line := 4, rule := gs "r", message := gs "m",
       severity := gs "warning", codeSnippet := [] } : FileViolation).line ∈
      getNewLineNumbers (gs "@@ -3,0 +4 @@\n+x") :=
  claim1_amended
    (gs "\x7b\"violations\":[\x7b\"line\":4,\"rule\":\"r\",\"message\":\"m\",\"severity\":\"warning\"\x7d]\x7d")
    (gs "h.go") (gs "@@ -3,0 +4 @@\n+x")
    { path := gs "h.go", line := 4, rule := gs "r", message := gs "m",
      severity := gs "warning", codeSnippet := [] }
    (by decide) (by decide)

/-! ## Claim C8: rule merging and deduplication -/

/-- The merged rule list is the local rules followed by each error-free
external repository's rules, in order. -/
theorem scanMergeRules_eq : ∀ (exts : List ExternalRules) (cur : List GoStr),
    scanMergeRules cur exts =
      cur ++ ((exts.filter (fun e => !e.hasError)).map ExternalRules.rules).flatten := by
  intro exts
  induction exts with
  | nil => intro cur; simp [scanMergeRules]
  | cons e rest ih =>
    intro cur
    have hstep : scanMergeRules cur (e :: rest) =
        scanMergeRules (if e.hasError then cur else cur ++ e.rules) rest := rfl
    rw [hstep]
    by_cases he : e.hasError <;> simp [he, ih, List.filter_cons]

/-- A rule kept by the learned-rules deduplication has a normalization
outside the already-seen set. -/
theorem dedupLearnedGo_not_seen : ∀ (rules seen : List GoStr) (x : GoStr),
    x ∈ dedupLearnedGo seen rules → ruleNorm x ∉ seen := by
  intro rules
  induction rules with
  | nil => simp [dedupLearnedGo]
  | cons r rest ih =>
    intro seen x hx
    simp only [dedupLearnedGo] at hx
    split_ifs at hx with hcond
    · rcases List.mem_cons.mp hx with rfl | hx2
      · intro hmem
        simp [List.contains, hmem] at hcond
      · intro hmem
        exact ih (ruleNorm r :: seen) x hx2 (List.mem_cons_of_mem _ hmem)
    · exact ih seen x hx

/-- The learned-rules deduplication output has pairwise distinct
normalizations. -/
theorem dedupLearnedGo_pairwise : ∀ (rules seen : List GoStr),
    (dedupLearnedGo seen rules).Pairwise (fun a b => ruleNorm a ≠ ruleNorm b) := by
  intro rules
  induction rules with
  | nil => intro seen; simp [dedupLearnedGo]
  | cons r rest ih =>
    intro seen
    simp only [dedupLearnedGo]
    split_ifs with hcond
    · refine List.Pairwise.cons ?_ (ih (ruleNorm r :: seen))
      intro b hb heq
      exact dedupLearnedGo_not_seen rest (ruleNorm r :: seen) b hb
        (heq ▸ List.mem_cons_self _ _)
    · exact ih seen

/-- Every non-empty input rule is represented in the deduplicated output
(or was already seen). -/
theorem dedupLearnedGo_covers : ∀ (rules seen : List GoStr) (r : GoStr),
    r ∈ rules → r ≠ [] →
    ruleNorm r ∈ seen ∨ ∃ rr ∈ dedupLearnedGo seen rules, ruleNorm rr = ruleNorm r := by
  intro rules
  induction rules with
  | nil => intro seen r hr; exact absurd hr (by simp)
  | cons a rest ih =>
    intro seen r hr hne
    simp only [dedupLearnedGo]
    split_ifs with hcond
    · rcases List.mem_cons.mp hr with rfl | hr2
      · exact Or.inr ⟨r, List.mem_cons_self _ _, rfl⟩
      · rcases ih (ruleNorm a :: seen) r hr2 hne with hmem | ⟨rr, hrr, he⟩
        · rcases List.mem_cons.mp hmem with heq | hmem2
          · exact Or.inr ⟨a, List.mem_cons_self _ _, heq.symm⟩
          · exact Or.inl hmem2
        · exact Or.inr ⟨rr, List.mem_cons_of_mem _ hrr, he⟩
    · rcases List.mem_cons.mp hr with rfl | hr2
      · left
        have hlen : (decide (List.length r > 0)) = true := by
          simp [List.length_pos]
          exact hne
        by_contra hmem
        have hcf : seen.contains (ruleNorm r) = false := by
          simp [List.contains]
          exact hmem
        simp [hcf, hlen] at hcond
        exact hmem hcond
      · exact ih seen r hr2 hne

/-- C8 counterexample: the orchestrator's merged rule list does not skip
a rule that duplicates an earlier one up to case/whitespace
normalization — both copies are kept. -/
theorem claim8_counterexample :
    scanMergeRules [gs "Wrap errors with context always"]
        [{ hasError := false, rules := [gs "wrap errors with context ALWAYS"] }] =
      [gs "Wrap errors with context always", gs "wrap errors with context ALWAYS"] ∧
    ruleNorm (gs "wrap errors with context ALWAYS") =
      ruleNorm (gs "Wrap errors with context always") := by
  decide

/-- C8 amended: the merged list is the local rules first followed by
each error-free external repo's rules in order, with duplicates kept;
deduplication up to case/whitespace normalization (dropping empty rules)
happens only when the context generator renders the Learned Rules
section. -/
theorem claim8_amended :
    (∀ (cur : List GoStr) (exts : List ExternalRules),
      scanMergeRules cur exts =
        cur ++ ((exts.filter (fun e => !e.hasError)).map ExternalRules.rules).flatten) ∧
    (∀ rules : List GoStr,
      (dedupLearnedRules rules).Pairwise (fun a b => ruleNorm a ≠ ruleNorm b)) ∧
    (∀ (rules : List GoStr) (r : GoStr), r ∈ rules → r ≠ [] →
      ∃ rr ∈ dedupLearnedRules rules, ruleNorm rr = ruleNorm r) := by
  refine ⟨fun cur exts => scanMergeRules_eq exts cur,
          fun rules => dedupLearnedGo_pairwise rules [],
          fun rules r hr hne => ?_⟩
  rcases dedupLearnedGo_covers rules [] r hr hne with hmem | h
  · exact absurd hmem (by simp)
  · exact h

/-- Witness for C8: the duplicated rule of the counterexample is
represented exactly once after the generator's deduplication. -/
theorem claim8_amended_witness :
    ∃ rr ∈ dedupLearnedRules
        [gs "Wrap errors with context always", gs "wrap errors with context ALWAYS"],
      ruleNorm rr = ruleNorm (gs "wrap errors with context ALWAYS") :=
  claim8_amended.2.2
    [gs "Wrap errors with context always", gs "wrap errors with context ALWAYS"]
    (gs "wrap errors with context ALWAYS") (by decide) (by decide)

/-! ## Claim C4: no rules means an empty, effect-free review -/

/-- C4: when `.prmate.md` parses to no rules and no checklist items,
`ReviewPR` returns a result with zero files reviewed, zero comments
posted, zero violations found and `summary_posted = false`, and performs
no LLM call and posts no review or summary comment (the effect log is
empty). -/
theorem claim4_no_rules_empty_result :
    ∀ (env : Env) (req : ReviewRequest) (content : GoStr),
    7 ≤ req.headSHA.length →
    env.getFileContent req.owner req.repo (gs ".prmate.md") req.headRef = .ok content →
    (loadRulesPure content).1 = [] →
    (loadRulesPure content).2.1 = [] →
    reviewPR env req =
      (.ok { filesReviewed := 0, commentsPosted := 0, violationsFound := 0,
             summaryPosted := false, reviewedCommit := req.headSHA }, []) := by
  intro env req content h7 hget hr hc
  simp [reviewPR, goSliceTo, h7, loadRules, hget, hr, hc]

/-- Witness for C4 on the test fixture content (a header, no bullets or
checkboxes). -/
theorem claim4_no_rules_empty_result_witness :
    reviewPR envNoRules reqW =
      (.ok { filesReviewed := 0, commentsPosted := 0, violationsFound := 0,
             summaryPosted := false, reviewedCommit := reqW.headSHA }, []) :=
  claim4_no_rules_empty_result envNoRules reqW
    (gs "# PRMate Context\n\nEmpty file with no rules.")
    (by decide) rfl (by decide) (by decide)

/-- The checkbox pattern's whitespace runs cross newlines, so a box on
its own line still captures the following line: the model agrees with
Go's regexp here, and such content is a nonempty checklist that the
hypotheses of the C4 theorem exclude. -/
theorem extractChecklistItems_crosses_newline :
    loadRulesPure
        (gs "## Review checklist\n- [ ]\nensure errors are wrapped") =
      ([], [gs "ensure errors are wrapped"], []) := by
  decide

/-! ## Claim C2: workspace deletion safety -/

/-- Inversion of a successful `validateSafeDelete` when the target is
known to resolve: it yields resolved base and target, a target distinct
from the base, and a relative path that is neither `.` nor `..` nor
`../`-prefixed. -/
theorem validateSafeDelete_ok_inv (fs : FSOracle) (base target : GoStr)
    (hok : validateSafeDelete fs base target = .ok ())
    (hne : fs.evalSymlinks target ≠ .notExist) :
    ∃ baseDir br tr rel,
      normalizeBaseDir fs base = .ok baseDir ∧
      fs.evalSymlinks baseDir = .resolved br ∧
      fs.evalSymlinks target = .resolved tr ∧
      goClean tr ≠ goClean br ∧
      goRel (goClean br) (goClean tr) = .ok rel ∧
      rel ≠ gs "." ∧ rel ≠ gs ".." ∧ ¬ GoModel.hasPrefix rel (gs "../") := by
  unfold validateSafeDelete at hok
  split at hok
  next e hnb => exact absurd hok (by simp)
  next baseDir hnb =>
    split at hok
    next heb => exact absurd hok (by simp)
    next m heb => exact absurd hok (by simp)
    next br heb =>
      split at hok
      next het => exact absurd het hne
      next m het => exact absurd hok (by simp)
      next tr het =>
        dsimp only at hok
        split at hok
        next heq2 => exact absurd hok (by simp)
        next heq2 =>
          split at hok
          next e2 hrel => exact absurd hok (by simp)
          next rel hrel =>
            split at hok
            next hbad => exact absurd hok (by simp)
            next hbad =>
              simp only [Bool.or_eq_true, decide_eq_true_eq, not_or] at hbad
              exact ⟨baseDir, br, tr, rel, hnb, heb, het, heq2, hrel,
                hbad.1.1, hbad.2, hbad.1.2⟩

/-- C2 amended: `Delete` succeeds as a no-op when the target directory
is absent; otherwise (under a race-free filesystem, where a directory
that `Stat` sees also resolves) it removes the directory only when the
sentinel exists in the target, the symlink-resolved target is not the
resolved base, and the relative path from resolved base to resolved
target is neither `.` nor `..` nor prefixed by `../`; in every other
case it returns an error and removes nothing.  (The original claim's
"not starting with `..`" is weakened to "not `..` and not starting with
`../`": a component merely beginning with two dots is allowed.) -/
theorem claim2_amended : ∀ (fs : FSOracle) (base repoName : GoStr) (pr : Int),
    (∀ p, fs.stat p = .found → fs.evalSymlinks p ≠ .notExist) →
    ((∀ d, 0 < pr → prDirPath fs base repoName pr = .ok d →
        fs.stat d = .notExist →
        deletePRDir fs base repoName pr = (.ok (), none)) ∧
     (∀ d, (deletePRDir fs base repoName pr).2 = some d →
        deletePRDir fs base repoName pr = (.ok (), some d) ∧
        prDirPath fs base repoName pr = .ok d ∧
        fs.stat d = .found ∧
        fs.stat (goJoin [d, gs ".prmate-workdir"]) = .found ∧
        ∃ baseDir br tr rel,
          normalizeBaseDir fs base = .ok baseDir ∧
          fs.evalSymlinks baseDir = .resolved br ∧
          fs.evalSymlinks d = .resolved tr ∧
          goClean tr ≠ goClean br ∧
          goRel (goClean br) (goClean tr) = .ok rel ∧
          rel ≠ gs "." ∧ rel ≠ gs ".." ∧ ¬ GoModel.hasPrefix rel (gs "../")) ∧
     (∀ e, (deletePRDir fs base repoName pr).1 = .error e →
        (deletePRDir fs base repoName pr).2 = none)) := by
  intro fs base repoName pr hcoh
  refine ⟨?_, ?_, ?_⟩
  · intro d hpr hpath hstat
    have hne : ¬ pr ≤ 0 := by omega
    simp [deletePRDir, hne, hpath, hstat]
  · intro d hd
    by_cases hpr : pr ≤ 0
    · simp [deletePRDir, hpr] at hd
    · cases hp : prDirPath fs base repoName pr with
      | error e2 => simp [deletePRDir, hpr, hp] at hd
      | ok prDir =>
        cases hst : fs.stat prDir with
        | notExist => simp [deletePRDir, hpr, hp, hst] at hd
        | errOther m => simp [deletePRDir, hpr, hp, hst] at hd
        | found =>
          cases hval : validateSafeDelete fs base prDir with
          | error e3 => simp [deletePRDir, hpr, hp, hst, hval] at hd
          | ok u =>
            cases hsent : fs.stat (goJoin [prDir, gs ".prmate-workdir"]) with
            | notExist => simp [deletePRDir, hpr, hp, hst, hval, hsent] at hd
            | errOther m => simp [deletePRDir, hpr, hp, hst, hval, hsent] at hd
            | found =>
              have hdd : prDir = d := by
                simpa [deletePRDir, hpr, hp, hst, hval, hsent] using hd
              subst hdd
              cases u
              refine ⟨by simp [deletePRDir, hpr, hp, hst, hval, hsent], rfl, hst, hsent, ?_⟩
              exact validateSafeDelete_ok_inv fs base prDir hval (hcoh prDir hst)
  · intro e he
    by_cases hpr : pr ≤ 0
    · simp [deletePRDir, hpr]
    · cases hp : prDirPath fs base repoName pr with
      | error e2 => simp [deletePRDir, hpr, hp]
      | ok prDir =>
        cases hst : fs.stat prDir with
        | notExist => simp [deletePRDir, hpr, hp, hst]
        | errOther m => simp [deletePRDir, hpr, hp, hst]
        | found =>
          cases hval : validateSafeDelete fs base prDir with
          | error e3 => simp [deletePRDir, hpr, hp, hst, hval]
          | ok u =>
            cases hsent : fs.stat (goJoin [prDir, gs ".prmate-workdir"]) with
            | notExist => simp [deletePRDir, hpr, hp, hst, hval, hsent]
            | errOther m => simp [deletePRDir, hpr, hp, hst, hval, hsent]
            | found =>
              cases u
              simp [deletePRDir, hpr, hp, hst, hval, hsent] at he

/-- C2 counterexample: a target that resolves to a sibling directory
named `..d` yields a relative path starting with `..`, yet the code
deletes it — the code only rejects `.`, `..` and `../`-prefixed relative
paths, not everything starting with `..`. -/
theorem claim2_counterexample :
    deletePRDir fsCE (gs "/b") (gs "o/r") 1 = (.ok (), some (gs "/b/o/r/pr-1")) ∧
    fsCE.evalSymlinks (gs "/b") = .resolved (gs "/b") ∧
    fsCE.evalSymlinks (gs "/b/o/r/pr-1") = .resolved (gs "/b/..d") ∧
    goRel (gs "/b") (gs "/b/..d") = .ok (gs "..d") ∧
    GoModel.hasPrefix (gs "..d") (gs "..") = true :=
  ⟨by rfl, by rfl, by rfl, by rfl, by decide⟩

/-- Witness for C2: an absent target deletes nothing and succeeds, and a
well-formed workspace with sentinel is removed. -/
theorem claim2_amended_witness :
    deletePRDir fsAbsent (gs "/b") (gs "o/r") 1 = (.ok (), none) ∧
    deletePRDir fsOK (gs "/b") (gs "o/r") 1 = (.ok (), some (gs "/b/o/r/pr-1")) :=
  ⟨(claim2_amended fsAbsent (gs "/b") (gs "o/r") 1
      (fun p hp => by simp [fsAbsent] at hp)).1
      (gs "/b/o/r/pr-1") (by decide) (by rfl) (by rfl),
   ((claim2_amended fsOK (gs "/b") (gs "o/r") 1
      (fun p hp => by simp [fsOK])).2.1
      (gs "/b/o/r/pr-1") (by rfl)).1⟩

/-! ## Claim C7: per-hunk line counts vs header fields -/

/-- Appending one line to the count of new-file-numbered lines. -/
theorem countAC_append_one (l : List PatchLine) (pl : PatchLine) :
    countAC (l ++ [pl]) = countAC l + (if pl.tp = gs "remove" then 0 else 1) := by
  simp only [countAC, List.filter_append]
  by_cases h : pl.tp = gs "remove" <;> simp [h]

/-- Appending one line to the count of old-file-numbered lines. -/
theorem countRC_append_one (l : List PatchLine) (pl : PatchLine) :
    countRC (l ++ [pl]) = countRC l + (if pl.tp = gs "add" then 0 else 1) := by
  simp only [countRC, List.filter_append]
  by_cases h : pl.tp = gs "add" <;> simp [h]

/-- Extending a numbered hunk by one correctly numbered line keeps it
numbered. -/
theorem hunkNumbered_append (h : PatchHunk) (pl : PatchLine)
    (hh : hunkNumbered h)
    (hnew : pl.tp ≠ gs "remove" → pl.newLineNo = h.newStart + countAC h.lines)
    (hold : pl.tp ≠ gs "add" → pl.oldLineNo = h.oldStart + countRC h.lines) :
    hunkNumbered { h with lines := h.lines ++ [pl] } := by
  intro i hi
  simp only [List.length_append, List.length_singleton] at hi
  by_cases hlt : i < h.lines.length
  · have hget : (h.lines ++ [pl]).get ⟨i, by simp; omega⟩ = h.lines.get ⟨i, hlt⟩ := by
      simp [List.getElem_append_left hlt]
    have htake : (h.lines ++ [pl]).take i = h.lines.take i := by
      rw [List.take_append_eq_append_take]
      have : i - h.lines.length = 0 := by omega
      simp [this]
    constructor <;> intro htp
    · simp only [hget, htake] at *
      exact (hh i hlt).1 (by simpa [hget] using htp)
    · simp only [hget, htake] at *
      exact (hh i hlt).2 (by simpa [hget] using htp)
  · have hieq : i = h.lines.length := by omega
    subst hieq
    have hget : (h.lines ++ [pl]).get ⟨h.lines.length, by simp⟩ = pl := by
      simp
    have htake : (h.lines ++ [pl]).take h.lines.length = h.lines := List.take_left _ _
    constructor <;> intro htp
    · simp only [hget, htake] at *
      exact hnew (by simpa [hget] using htp)
    · simp only [hget, htake] at *
      exact hold (by simpa [hget] using htp)



/-- Invariant of `ParsePatch`'s loop: all closed hunks are numbered, and
the running counters track the open hunk's counts. -/
theorem parsePatchGo_numbered : ∀ (lines : List GoStr) (st : ParseSt),
    (∀ h ∈ st.hunks, hunkNumbered h) →
    (∀ cur, st.current = some cur →
      hunkNumbered cur ∧
      st.newLine = cur.newStart + countAC cur.lines ∧
      st.oldLine = cur.oldStart + countRC cur.lines) →
    ∀ h ∈ parsePatchGo lines st, hunkNumbered h := by
  intro lines
  induction lines with
  | nil =>
    intro st hh hc h hmem
    cases hcur : st.current with
    | none => simp only [parsePatchGo, hcur] at hmem; exact hh h hmem
    | some cur =>
      simp only [parsePatchGo, hcur] at hmem
      rcases List.mem_append.mp hmem with hm | hm
      · exact hh h hm
      · rw [List.mem_singleton.mp hm]; exact (hc cur hcur).1
  | cons line rest ih =>
    intro st hh hc h hmem
    have hfresh : ∀ st2 : ParseSt, st2.current = some (parseHunkHeader line) →
        st2.newLine = (parseHunkHeader line).newStart →
        st2.oldLine = (parseHunkHeader line).oldStart →
        ∀ cur2, st2.current = some cur2 →
          hunkNumbered cur2 ∧
          st2.newLine = cur2.newStart + countAC cur2.lines ∧
          st2.oldLine = cur2.oldStart + countRC cur2.lines := by
      intro st2 hcur2 hn2 ho2 cur2 hc2
      rw [hcur2] at hc2
      simp only [Option.some.injEq] at hc2
      subst hc2
      refine ⟨?_, ?_, ?_⟩
      · intro i hi
        simp only [parseHunkHeader] at hi
        split at hi <;> simp at hi
      · rw [hn2]
        simp only [parseHunkHeader, countAC]
        split <;> simp
      · rw [ho2]
        simp only [parseHunkHeader, countRC]
        split <;> simp
    by_cases hpre : GoModel.hasPrefix line (gs "@@")
    · cases hcur : st.current with
      | none =>
        simp only [parsePatchGo, hpre, hcur, if_true] at hmem
        refine ih _ ?_ ?_ h hmem
        · exact hh
        · exact hfresh _ rfl rfl rfl
      | some cur =>
        simp only [parsePatchGo, hpre, hcur, if_true] at hmem
        refine ih _ ?_ ?_ h hmem
        · intro h2 hm2
          rcases List.mem_append.mp hm2 with hm | hm
          · exact hh h2 hm
          · rw [List.mem_singleton.mp hm]; exact (hc cur hcur).1
        · exact hfresh _ rfl rfl rfl
    · cases hcur : st.current with
      | none =>
        simp only [parsePatchGo, hpre, hcur, Bool.false_eq_true, if_false] at hmem
        refine ih _ ?_ ?_ h hmem
        · exact hh
        · exact fun c hc2 => by simp at hc2
      | some cur =>
        obtain ⟨hnum, hnl, hol⟩ := hc cur hcur
        simp only [parsePatchGo, hpre, hcur, Bool.false_eq_true, if_false] at hmem
        by_cases hadd : (GoModel.hasPrefix line (gs "+") &&
            !GoModel.hasPrefix line (gs "+++")) = true
        · rw [if_pos hadd] at hmem
          refine ih _ ?_ ?_ h hmem
          · exact hh
          · intro cur2 hcur2
            simp only [Option.some.injEq] at hcur2
            subst hcur2
            refine ⟨hunkNumbered_append cur _ hnum (fun _ => hnl)
              (fun hcontra => absurd rfl hcontra), ?_, ?_⟩
            · simp [countAC_append_one, hnl,
                show ¬(gs "add" = gs "remove") from by decide]
              omega
            · simp [countRC_append_one, hol]
        · rw [if_neg hadd] at hmem
          by_cases hrem : (GoModel.hasPrefix line (gs "-") &&
              !GoModel.hasPrefix line (gs "---")) = true
          · rw [if_pos hrem] at hmem
            refine ih _ ?_ ?_ h hmem
            · exact hh
            · intro cur2 hcur2
              simp only [Option.some.injEq] at hcur2
              subst hcur2
              refine ⟨hunkNumbered_append cur _ hnum
                (fun hcontra => absurd rfl hcontra) (fun _ => hol), ?_, ?_⟩
              · simp [countAC_append_one, hnl]
              · simp [countRC_append_one, hol,
                  show ¬(gs "remove" = gs "add") from by decide]
                omega
          · rw [if_neg hrem] at hmem
            refine ih _ ?_ ?_ h hmem
            · exact hh
            · intro cur2 hcur2
              simp only [Option.some.injEq] at hcur2
              subst hcur2
              refine ⟨hunkNumbered_append cur _ hnum (fun _ => hnl) (fun _ => hol),
                ?_, ?_⟩
              · simp [countAC_append_one, hnl,
                  show ¬(gs "context" = gs "remove") from by decide]
                omega
              · simp [countRC_append_one, hol,
                  show ¬(gs "context" = gs "add") from by decide]
                omega

/-- C7 amended: in each hunk the parser numbers `add`/`context` lines
consecutively from `new_start` and `remove`/`context` lines consecutively
from `old_start` (so their counts equal the advance of the respective
counters); the header fields `new_lines`/`old_lines` are taken verbatim
from the header (defaulted to 1 on malformed headers) and are not
validated against those counts. -/
theorem claim7_amended : ∀ (patch : GoStr) (h : PatchHunk),
    h ∈ parsePatch patch → hunkNumbered h := by
  intro patch h hmem
  by_cases hp : patch = []
  · simp [parsePatch, hp] at hmem
  · simp only [parsePatch, hp, if_neg, if_false] at hmem
    exact parsePatchGo_numbered _ _ (by simp) (fun cur hcur => by simp at hcur) h hmem

/-- C7 counterexample: a hunk whose header over-declares its line counts
is parsed as such — the sum of `add` and `context` lines is 1 while
`new_lines` is 5, and `remove` + `context` is 0 while `old_lines` is
5. -/
theorem claim7_counterexample :
    parsePatch (gs "@@ -1,5 +1,5 @@\n+x") =
      [{ oldStart := 1, oldLines := 5, newStart := 1, newLines := 5,
         lines := [{ tp := gs "add", content := gs "+x", oldLineNo := 0,
                     newLineNo := 1, diffPos := 2 }] }] ∧
    countAC [{ tp := gs "add", content := gs "+x", oldLineNo := 0,
               newLineNo := 1, diffPos := 2 }] ≠ (5 : Int) ∧
    countRC [{ tp := gs "add", content := gs "+x", oldLineNo := 0,
               newLineNo := 1, diffPos := 2 }] ≠ (5 : Int) := by
  decide

/-- Witness for C7: the single added line of `"@@ -3,0 +4 @@\n+x"` is
numbered `new_start + 0 = 4`. -/
theorem claim7_amended_witness :
    ((hunkC7.lines.get ⟨0, by decide⟩).newLineNo) =
      hunkC7.newStart + countAC (hunkC7.lines.take 0) :=
  (claim7_amended (gs "@@ -3,0 +4 @@\n+x") hunkC7 (by decide) 0 (by decide)).1
    (by decide)


theorem expectL_append (tok rest : GoStr) : expectL tok (tok ++ rest) = some rest := by
  simp [expectL, List.isPrefixOf_iff_prefix, List.drop_left]

theorem natDigitsCore_acc (fuel : Nat) : ∀ (n : Nat) (acc : GoStr), n < fuel →
    natDigitsCore fuel n acc = natDigitsCore fuel n [] ++ acc := by
  induction fuel with
  | zero => intro n acc h; omega
  | succ fuel ih =>
    intro n acc h
    by_cases h10 : n < 10
    · simp [natDigitsCore, h10]
    · have hlt : n / 10 < fuel := by omega
      simp only [natDigitsCore, h10, if_false]
      rw [ih (n / 10) (Char.ofNat (48 + n % 10) :: acc) hlt,
          ih (n / 10) [Char.ofNat (48 + n % 10)] hlt]
      simp

theorem natDigitsCore_fuel (fuel1 : Nat) : ∀ (fuel2 n : Nat), n < fuel1 → n < fuel2 →
    natDigitsCore fuel1 n [] = natDigitsCore fuel2 n [] := by
  induction fuel1 with
  | zero => intro fuel2 n h; omega
  | succ fuel1 ih =>
    intro fuel2 n h1 h2
    cases fuel2 with
    | zero => omega
    | succ fuel2 =>
      by_cases h10 : n < 10
      · simp [natDigitsCore, h10]
      · simp only [natDigitsCore, h10, if_false]
        rw [natDigitsCore_acc fuel1 (n / 10) _ (by omega),
            natDigitsCore_acc fuel2 (n / 10) _ (by omega),
            ih fuel2 (n / 10) (by omega) (by omega)]

theorem natDigits_small {n : Nat} (h : n < 10) :
    natDigits n = [Char.ofNat (48 + n)] := by
  simp [natDigits, natDigitsCore, h, Nat.mod_eq_of_lt h]

theorem natDigits_step {n : Nat} (h : 10 ≤ n) :
    natDigits n = natDigits (n / 10) ++ [Char.ofNat (48 + n % 10)] := by
  have h10 : ¬ n < 10 := by omega
  have step1 : natDigitsCore (n + 1) n [] =
      if n < 10 then Char.ofNat (48 + n % 10) :: []
      else natDigitsCore n (n / 10) (Char.ofNat (48 + n % 10) :: []) := rfl
  show natDigitsCore (n + 1) n [] = natDigitsCore (n / 10 + 1) (n / 10) [] ++ _
  rw [step1, if_neg h10,
      natDigitsCore_acc n (n / 10) _ (by omega),
      natDigitsCore_fuel n (n / 10 + 1) (n / 10) (by omega) (by omega)]

theorem digitChar_isDigit : ∀ m : Nat, m < 10 → (Char.ofNat (48 + m)).isDigit = true := by
  decide

theorem digitChar_toNat : ∀ m : Nat, m < 10 → (Char.ofNat (48 + m)).toNat = 48 + m := by
  decide

theorem natDigits_ne_nil (n : Nat) : natDigits n ≠ [] := by
  induction n using Nat.strong_induction_on with
  | _ n ih =>
    by_cases h : n < 10
    · simp [natDigits_small h]
    · rw [natDigits_step (by omega)]
      simp

theorem natDigits_all_digit (n : Nat) : ∀ c ∈ natDigits n, c.isDigit = true := by
  induction n using Nat.strong_induction_on with
  | _ n ih =>
    by_cases h : n < 10
    · rw [natDigits_small h]
      intro c hc
      rw [List.mem_singleton.mp hc]
      exact digitChar_isDigit n h
    · rw [natDigits_step (by omega)]
      intro c hc
      rcases List.mem_append.mp hc with hm | hm
      · exact ih (n / 10) (by omega) c hm
      · rw [List.mem_singleton.mp hm]
        exact digitChar_isDigit (n % 10) (by omega)

theorem decDigitsVal_append (ds : GoStr) (c : Char) :
    decDigitsVal (ds ++ [c]) = 10 * decDigitsVal ds + (c.toNat - 48) := by
  simp [decDigitsVal, List.foldl_append]

theorem decDigitsVal_natDigits (n : Nat) : decDigitsVal (natDigits n) = n := by
  induction n using Nat.strong_induction_on with
  | _ n ih =>
    by_cases h : n < 10
    · rw [natDigits_small h]
      simp [decDigitsVal, digitChar_toNat n h]
    · rw [natDigits_step (by omega), decDigitsVal_append,
          ih (n / 10) (by omega), digitChar_toNat (n % 10) (by omega)]
      omega

theorem takeWhile_digits_append (ds rest : GoStr)
    (hall : ∀ c ∈ ds, c.isDigit = true)
    (hrest : ∀ c, rest.head? = some c → c.isDigit = false) :
    (ds ++ rest).takeWhile Char.isDigit = ds ∧
    (ds ++ rest).drop ds.length = rest := by
  constructor
  · induction ds with
    | nil =>
      cases rest with
      | nil => rfl
      | cons c t =>
        simp only [List.nil_append, List.takeWhile]
        rw [hrest c rfl]
    | cons d t ihd =>
      simp only [List.cons_append, List.takeWhile, hall d (by simp)]
      simpa using ihd (fun c hc => hall c (by simp [hc]))
  · exact List.drop_left ds rest

theorem parseJNat_natDigits (n : Nat) (rest : GoStr)
    (hrest : ∀ c, rest.head? = some c → c.isDigit = false) :
    parseJNat (natDigits n ++ rest) = some (n, rest) := by
  obtain ⟨htw, hdr⟩ := takeWhile_digits_append (natDigits n) rest
    (natDigits_all_digit n) hrest
  simp only [parseJNat, htw]
  rw [if_neg (natDigits_ne_nil n)]
  rw [decDigitsVal_natDigits, hdr]

theorem parseJInt_goItoa (i : Int) (rest : GoStr)
    (hrest : ∀ c, rest.head? = some c → c.isDigit = false) :
    parseJInt (goItoa i ++ rest) = some (i, rest) := by
  by_cases hneg : i < 0
  · simp only [goItoa, hneg, if_true, List.cons_append, parseJInt]
    rw [parseJNat_natDigits i.natAbs rest hrest]
    have habs : ((i.natAbs : Int)) = -i :=
      Int.ofNat_natAbs_of_nonpos (by omega)
    simp [habs]
  · simp only [goItoa, hneg, if_false]
    obtain ⟨d, t, hdt⟩ : ∃ d t, natDigits i.toNat = d :: t := by
      cases hnd : natDigits i.toNat with
      | nil => exact absurd hnd (natDigits_ne_nil _)
      | cons d t => exact ⟨d, t, rfl⟩
    have hd : d.isDigit = true := natDigits_all_digit i.toNat d (by simp [hdt])
    have hdm : d ≠ '-' := by
      intro hcontra
      rw [hcontra] at hd
      simp [Char.isDigit] at hd
    rw [hdt]
    simp only [List.cons_append]
    unfold parseJInt
    split
    next rest2 heq =>
      exfalso
      injection heq with h1 h2
      exact hdm h1
    next =>
      have hpn := parseJNat_natDigits i.toNat rest hrest
      rw [hdt] at hpn
      simp only [List.cons_append] at hpn
      rw [hpn]
      have hto : ((i.toNat : Int)) = i := Int.toNat_of_nonneg (by omega)
      simp [hto]

theorem charOfNat_toNat (c : Char) : Char.ofNat c.toNat = c := by
  have hv : c.toNat.isValidChar := c.valid
  simp only [Char.ofNat, hv, dite_true]
  apply Char.ext
  rfl

theorem hexVal_hexDigitChar : ∀ m : Nat, m < 16 → hexVal (hexDigitChar m) = some m := by
  decide


set_option maxHeartbeats 2000000 in
theorem parseJStrBody_escapeChar (c : Char) (acc tail : GoStr) (fuel : Nat) :
    parseJStrBody (fuel + 1) acc (escapeChar c ++ tail) =
      parseJStrBody fuel (c :: acc) tail := by
  unfold escapeChar
  split_ifs with h1 h2 h3 h4 h5 h6 h7 h8 h9 h10 h11
  · subst h1; simp only [List.cons_append, List.nil_append, parseJStrBody]; rfl
  · subst h2; simp only [List.cons_append, List.nil_append, parseJStrBody]; rfl
  · subst h3; simp only [List.cons_append, List.nil_append, parseJStrBody]; rfl
  · subst h4; simp only [List.cons_append, List.nil_append, parseJStrBody]; rfl
  · subst h5; simp only [List.cons_append, List.nil_append, parseJStrBody]; rfl
  · simp only [List.cons_append, List.nil_append]
    simp only [parseJStrBody, decodeHex4]
    simp only [hexVal_hexDigitChar (c.toNat / 16) (by omega),
               hexVal_hexDigitChar (c.toNat % 16) (by omega),
               show hexVal '0' = some 0 from by decide]
    norm_num
    rw [show 16 * (c.toNat / 16) + c.toNat % 16 = c.toNat from Nat.div_add_mod _ _]
    rw [charOfNat_toNat]
    rw [if_neg (show ¬(('\\' : Char) = '"') from by decide)]
    rfl
  · subst h7; simp only [List.cons_append, List.nil_append, parseJStrBody]; rfl
  · subst h8; simp only [List.cons_append, List.nil_append, parseJStrBody]; rfl
  · subst h9; simp only [List.cons_append, List.nil_append, parseJStrBody]; rfl
  · subst h10; simp only [List.cons_append, List.nil_append, parseJStrBody]; rfl
  · subst h11; simp only [List.cons_append, List.nil_append, parseJStrBody]; rfl
  · simp only [List.cons_append, List.nil_append, parseJStrBody]
    rw [if_neg h1, if_neg h2]
    simp

set_option maxHeartbeats 2000000 in
theorem escapeChar_ne_nil (c : Char) : escapeChar c ≠ [] := by
  unfold escapeChar
  split_ifs <;> first | decide | simp

theorem length_le_escapeStr (s : GoStr) : s.length ≤ (escapeStr s).length := by
  induction s with
  | nil => simp [escapeStr]
  | cons c t ih =>
    have hstep : escapeStr (c :: t) = escapeChar c ++ escapeStr t := by
      simp [escapeStr]
    rw [hstep]
    have h1 : 1 ≤ (escapeChar c).length := by
      cases hec : escapeChar c with
      | nil => exact absurd hec (escapeChar_ne_nil c)
      | cons a b => simp
    simp only [List.length_append, List.length_cons]
    omega

theorem parseJStrBody_escapeStr (s : GoStr) : ∀ (fuel : Nat) (acc tail : GoStr),
    s.length < fuel →
    parseJStrBody fuel acc (escapeStr s ++ '"' :: tail) =
      some (acc.reverse ++ s, tail) := by
  induction s with
  | nil =>
    intro fuel acc tail hf
    cases fuel with
    | zero => omega
    | succ f =>
      simp [escapeStr, parseJStrBody]
  | cons c t ih =>
    intro fuel acc tail hf
    cases fuel with
    | zero => omega
    | succ f =>
      have hstep : escapeStr (c :: t) = escapeChar c ++ escapeStr t := by
        simp [escapeStr]
      rw [hstep, List.append_assoc, parseJStrBody_escapeChar,
          ih f (c :: acc) tail (by simp at hf; omega)]
      simp

theorem parseJStr_encStr (s rest : GoStr) :
    parseJStr (encStr s ++ rest) = some (s, rest) := by
  have hlt : s.length < (escapeStr s ++ '"' :: rest).length + 1 := by
    have := length_le_escapeStr s
    simp only [List.length_append, List.length_cons]
    omega
  simp only [encStr, List.cons_append, parseJStr, List.append_assoc,
    List.cons_append, List.nil_append]
  rw [parseJStrBody_escapeStr s _ [] rest hlt]
  simp

theorem decFileStatus_enc (f : FileReviewStatus) (rest : GoStr) :
    decFileStatus (encFileStatus f ++ rest) = some (f, rest) := by
  unfold decFileStatus encFileStatus
  simp only [List.append_assoc]
  rw [expectL_append]
  simp only [Option.bind_eq_bind, Option.some_bind]
  rw [parseJStr_encStr]
  simp only [Option.bind_eq_bind, Option.some_bind]
  rw [expectL_append]
  simp only [Option.bind_eq_bind, Option.some_bind]
  rw [parseJStr_encStr]
  simp only [Option.bind_eq_bind, Option.some_bind]
  rw [expectL_append]
  simp only [Option.bind_eq_bind, Option.some_bind]
  rw [parseJInt_goItoa f.violations _
    (by intro c hc; injection hc with h; rw [← h]; decide)]
  simp only [Option.bind_eq_bind, Option.some_bind]
  rw [expectL_append]
  simp only [Option.bind_eq_bind, Option.some_bind]
  rw [parseJStr_encStr]
  simp only [Option.bind_eq_bind, Option.some_bind]
  rw [expectL_append]
  simp only [Option.bind_eq_bind, Option.some_bind, Option.pure_def]

theorem joinChar_cons (x : GoStr) (xs : List GoStr) :
    GoModel.joinChar ',' (x :: xs) =
      x ++ (xs.map (fun y => ',' :: y)).flatten := by
  induction xs generalizing x with
  | nil => simp [GoModel.joinChar]
  | cons y ys ih =>
    simp only [GoModel.joinChar, List.map_cons, List.flatten_cons]
    rw [ih y]
    simp

theorem length_le_flatten_comma (xs : List GoStr) :
    xs.length ≤ ((xs.map (fun y => ',' :: y)).flatten).length := by
  induction xs with
  | nil => simp
  | cons x t ih =>
    simp only [List.map_cons, List.flatten_cons, List.length_append,
      List.length_cons]
    omega

theorem decFileStatusesRest_enc : ∀ (fs : List FileReviewStatus) (fuel : Nat)
    (rest : GoStr), fs.length < fuel →
    decFileStatusesRest fuel
      (((fs.map encFileStatus).map (fun y => ',' :: y)).flatten ++ ']' :: rest) =
      some (fs, rest) := by
  intro fs
  induction fs with
  | nil =>
    intro fuel rest hf
    cases fuel with
    | zero => omega
    | succ k => rfl
  | cons f t ih =>
    intro fuel rest hf
    cases fuel with
    | zero => omega
    | succ k =>
      simp only [List.map_cons, List.flatten_cons, List.cons_append,
        List.append_assoc]
      have hred : ∀ Y : GoStr, decFileStatusesRest (k + 1) (',' :: Y) =
          (do
            let p ← decFileStatus Y
            let q ← decFileStatusesRest k p.2
            pure (p.1 :: q.1, q.2)) := fun Y => rfl
      rw [hred]
      rw [decFileStatus_enc]
      simp only [Option.bind_eq_bind, Option.some_bind]
      rw [ih k rest (by simp at hf ⊢; omega)]
      simp

theorem decFileStatuses_enc (fs : List FileReviewStatus) (rest : GoStr) :
    decFileStatuses (encFileStatuses fs ++ rest) = some (fs, rest) := by
  cases fs with
  | nil => rfl
  | cons f t =>
    obtain ⟨tl, htl⟩ : ∃ tl, encFileStatus f = '\x7b' :: tl := ⟨_, rfl⟩
    simp only [encFileStatuses, List.map_cons, joinChar_cons, List.cons_append,
      List.append_assoc, List.nil_append]
    rw [htl]
    simp only [List.cons_append]
    have hred : ∀ Y : GoStr, decFileStatuses ('[' :: '\x7b' :: Y) =
        (do
          let p ← decFileStatus ('\x7b' :: Y)
          let q ← decFileStatusesRest (p.2.length + 1) p.2
          pure (p.1 :: q.1, q.2)) := fun Y => rfl
    rw [hred]
    rw [show ('\x7b' :: (tl ++
          (((t.map encFileStatus).map (fun y => ',' :: y)).flatten ++ ']' :: rest))) =
        encFileStatus f ++
          (((t.map encFileStatus).map (fun y => ',' :: y)).flatten ++ ']' :: rest) from by
      rw [htl]; simp]
    rw [decFileStatus_enc]
    simp only [Option.bind_eq_bind, Option.some_bind]
    rw [decFileStatusesRest_enc t _ rest
      (by have := length_le_flatten_comma (t.map encFileStatus); simp at this ⊢; omega)]
    simp

theorem decSummary_enc (S : ReviewSummary) :
    decSummary (encSummary S) = some S := by
  unfold decSummary encSummary
  simp only [List.append_assoc]
  rw [expectL_append]
  simp only [Option.bind_eq_bind, Option.some_bind]
  rw [parseJStr_encStr]
  simp only [Option.bind_eq_bind, Option.some_bind]
  rw [expectL_append]
  simp only [Option.bind_eq_bind, Option.some_bind]
  rw [parseJStr_encStr]
  simp only [Option.bind_eq_bind, Option.some_bind]
  rw [expectL_append]
  simp only [Option.bind_eq_bind, Option.some_bind]
  rw [parseJStr_encStr]
  simp only [Option.bind_eq_bind, Option.some_bind]
  rw [expectL_append]
  simp only [Option.bind_eq_bind, Option.some_bind]
  rw [decFileStatuses_enc]
  simp only [Option.bind_eq_bind, Option.some_bind]
  rw [expectL_append]
  simp only [Option.bind_eq_bind, Option.some_bind]
  rw [parseJInt_goItoa S.rulesApplied _
    (by intro c hc; injection hc with h; rw [← h]; decide)]
  simp only [Option.bind_eq_bind, Option.some_bind]
  rw [expectL_append]
  simp only [Option.bind_eq_bind, Option.some_bind]
  rw [parseJInt_goItoa S.violationsFound _
    (by intro c hc; injection hc with h; rw [← h]; decide)]
  simp only [Option.bind_eq_bind, Option.some_bind]
  rw [show expectL (gs "\x7d") (gs "\x7d") = some [] from rfl]
  simp

theorem hexDigitChar_ne_gt : ∀ n, n < 16 → hexDigitChar n ≠ '>' := by decide

theorem gt_not_mem_escapeChar (c : Char) : '>' ∉ escapeChar c := by
  intro hm
  unfold escapeChar at hm
  by_cases h1 : c = '"'
  · rw [if_pos h1] at hm; revert hm; decide
  rw [if_neg h1] at hm
  by_cases h2 : c = '\\'
  · rw [if_pos h2] at hm; revert hm; decide
  rw [if_neg h2] at hm
  by_cases h3 : c = '\n'
  · rw [if_pos h3] at hm; revert hm; decide
  rw [if_neg h3] at hm
  by_cases h4 : c = '\r'
  · rw [if_pos h4] at hm; revert hm; decide
  rw [if_neg h4] at hm
  by_cases h5 : c = '\t'
  · rw [if_pos h5] at hm; revert hm; decide
  rw [if_neg h5] at hm
  by_cases h6 : c.toNat < 32
  · rw [if_pos h6] at hm
    simp only [List.mem_cons, List.not_mem_nil, or_false] at hm
    rcases hm with h | h | h | h | h | h
    · exact absurd h (by decide)
    · exact absurd h (by decide)
    · exact absurd h (by decide)
    · exact absurd h (by decide)
    · exact hexDigitChar_ne_gt (c.toNat / 16) (by omega) h.symm
    · exact hexDigitChar_ne_gt (c.toNat % 16) (by omega) h.symm
  rw [if_neg h6] at hm
  by_cases h7 : c = '<'
  · rw [if_pos h7] at hm; revert hm; decide
  rw [if_neg h7] at hm
  by_cases h8 : c = '>'
  · rw [if_pos h8] at hm; revert hm; decide
  rw [if_neg h8] at hm
  by_cases h9 : c = '&'
  · rw [if_pos h9] at hm; revert hm; decide
  rw [if_neg h9] at hm
  by_cases h10 : c = Char.ofNat 0x2028
  · rw [if_pos h10] at hm; revert hm; decide
  rw [if_neg h10] at hm
  by_cases h11 : c = Char.ofNat 0x2029
  · rw [if_pos h11] at hm; revert hm; decide
  rw [if_neg h11] at hm
  exact h8 ((List.mem_singleton.mp hm).symm)

theorem gt_not_mem_encStr (s : GoStr) : '>' ∉ encStr s := by
  intro hm
  rcases List.mem_cons.mp hm with h | h
  · exact absurd h (by decide)
  rcases List.mem_append.mp h with h | h
  · rcases List.mem_flatten.mp h with ⟨l, hl, hcl⟩
    rcases List.mem_map.mp hl with ⟨c, _, rfl⟩
    exact gt_not_mem_escapeChar c hcl
  · revert h; decide

theorem gt_not_mem_natDigits (n : Nat) : '>' ∉ natDigits n := by
  intro hm
  have := natDigits_all_digit n _ hm
  simp [Char.isDigit] at this

theorem gt_not_mem_goItoa (i : Int) : '>' ∉ goItoa i := by
  unfold goItoa
  split_ifs
  · intro hm
    rcases List.mem_cons.mp hm with h | h
    · exact absurd h (by decide)
    · exact gt_not_mem_natDigits _ h
  · exact gt_not_mem_natDigits _

theorem gt_not_mem_encFileStatus (f : FileReviewStatus) :
    '>' ∉ encFileStatus f := by
  unfold encFileStatus
  refine List.not_mem_append (List.not_mem_append (List.not_mem_append
    (List.not_mem_append (List.not_mem_append (List.not_mem_append
    (List.not_mem_append (List.not_mem_append ?_ ?_) ?_) ?_) ?_) ?_) ?_) ?_)
    ?_ <;>
    first
      | exact gt_not_mem_encStr _
      | exact gt_not_mem_goItoa _
      | decide

theorem gt_not_mem_joinChar (ls : List GoStr) (h : ∀ s ∈ ls, '>' ∉ s) :
    '>' ∉ GoModel.joinChar ',' ls := by
  induction ls with
  | nil => simp [GoModel.joinChar]
  | cons s rest ih =>
    cases rest with
    | nil => simpa [GoModel.joinChar] using h s (by simp)
    | cons t ts =>
      intro hm
      rw [show GoModel.joinChar ',' (s :: t :: ts) =
          s ++ ',' :: GoModel.joinChar ',' (t :: ts) from rfl] at hm
      rcases List.mem_append.mp hm with hm | hm
      · exact h s (by simp) hm
      · rcases List.mem_cons.mp hm with hc | hc
        · exact absurd hc (by decide)
        · exact ih (fun x hx => h x (List.mem_cons_of_mem _ hx)) hc

theorem gt_not_mem_encFileStatuses (fs : List FileReviewStatus) :
    '>' ∉ encFileStatuses fs := by
  unfold encFileStatuses
  intro hm
  rcases List.mem_cons.mp hm with h | h
  · exact absurd h (by decide)
  rcases List.mem_append.mp h with h | h
  · exact gt_not_mem_joinChar _
      (by intro s hs; rcases List.mem_map.mp hs with ⟨f, _, rfl⟩
          exact gt_not_mem_encFileStatus f) h
  · revert h; decide

theorem gt_not_mem_encSummary (S : ReviewSummary) : '>' ∉ encSummary S := by
  unfold encSummary
  refine List.not_mem_append (List.not_mem_append (List.not_mem_append
    (List.not_mem_append (List.not_mem_append (List.not_mem_append
    (List.not_mem_append (List.not_mem_append (List.not_mem_append
    (List.not_mem_append (List.not_mem_append (List.not_mem_append ?_ ?_)
    ?_) ?_) ?_) ?_) ?_) ?_) ?_) ?_) ?_) ?_) ?_ <;>
    first
      | exact gt_not_mem_encStr _
      | exact gt_not_mem_encFileStatuses _
      | exact gt_not_mem_goItoa _
      | decide

theorem findSub_nil (pat : GoStr) :
    findSub [] pat = if pat.isPrefixOf [] then some 0 else none := rfl

theorem findSub_cons (c : Char) (t pat : GoStr) :
    findSub (c :: t) pat =
      if pat.isPrefixOf (c :: t) then some 0
      else (findSub t pat).map (· + 1) := rfl

theorem findSub_extend (M T : GoStr) :
    ∀ P, findSub (P ++ M) M = some P.length →
      findSub (P ++ (M ++ T)) M = some P.length := by
  intro P
  induction P with
  | nil =>
    intro _
    cases hM : M ++ T with
    | nil =>
      have hM0 : M = [] := (List.append_eq_nil.mp hM).1
      subst hM0
      simp only [List.nil_append, List.length_nil, hM]
      rfl
    | cons c t =>
      simp only [List.nil_append, List.length_nil, hM]
      rw [findSub_cons, if_pos]
      rw [ List.isPrefixOf_iff_prefix, ← hM]
      exact List.prefix_append M T
  | cons c P' ih =>
    intro h
    simp only [List.cons_append, List.length_cons] at h ⊢
    by_cases hpre : M.isPrefixOf (c :: (P' ++ M))
    · rw [findSub_cons, if_pos hpre] at h
      exact absurd (Option.some_inj.mp h) (by omega)
    · rw [findSub_cons, if_neg hpre] at h
      rcases Option.map_eq_some'.mp h with ⟨a, ha, hab⟩
      have h' : findSub (P' ++ M) M = some P'.length := by
        rw [ha]; congr 1; omega
      have hpre2 : ¬ M.isPrefixOf (c :: (P' ++ (M ++ T))) := by
        intro hp2
        apply hpre
        rw [ List.isPrefixOf_iff_prefix] at hp2 ⊢
        have hx : (c :: (P' ++ M)) <+: (c :: (P' ++ (M ++ T))) :=
          ⟨T, by simp⟩
        exact List.prefix_of_prefix_length_le hp2 hx
          (by simp only [List.length_cons, List.length_append]; omega)
      rw [findSub_cons, if_neg hpre2, ih h']
      rfl

theorem findSub_gt_marker (J : GoStr) (hJ : '>' ∉ J) :
    findSub (J ++ gs " -->") (gs " -->") = some J.length := by
  induction J with
  | nil => decide
  | cons c J' ih =>
    have hJ' : '>' ∉ J' := fun h => hJ (List.mem_cons_of_mem _ h)
    have hpre : ¬ (gs " -->").isPrefixOf (c :: J' ++ gs " -->") := by
      intro hp
      rw [ List.isPrefixOf_iff_prefix] at hp
      rcases hp with ⟨t, ht⟩
      by_cases hlen : (c :: J').length ≤ 3
      · have h1 : (gs " -->" ++ t).drop (c :: J').length =
            ((gs " -->").drop (c :: J').length) ++ t := by
          rw [List.drop_append_eq_append_drop]
          have hlen4 : (gs " -->").length = 4 := rfl
          have : (c :: J').length - (gs " -->").length = 0 := by
            simp only [List.length_cons, hlen4]
            simp only [List.length_cons] at hlen
            omega
          rw [this, List.drop_zero]
        have h2 : (c :: J' ++ gs " -->").drop (c :: J').length = gs " -->" :=
          List.drop_left _ _
        rw [ht, h2] at h1
        have hpref : (gs " -->").drop (c :: J').length <+: gs " -->" :=
          ⟨t, h1.symm⟩
        have hcon : ∀ d, d < 4 → 0 < d →
            ¬ ((gs " -->").drop d <+: gs " -->") := by decide
        exact hcon _ (by simp only [List.length_cons] at hlen ⊢; omega)
          (by simp only [List.length_cons]; omega) hpref
      · push_neg at hlen
        have h1 : (gs " -->" ++ t).take 4 = gs " -->" := by
          rw [List.take_append_of_le_length (by decide)]
          decide
        rw [ht] at h1
        have h2 : (c :: J' ++ gs " -->").take 4 = (c :: J').take 4 :=
          List.take_append_of_le_length (by omega)
        rw [h2] at h1
        have : '>' ∈ (c :: J').take 4 := by rw [h1]; decide
        exact hJ (List.mem_of_mem_take this)
    have hpre2 : ¬ (gs " -->").isPrefixOf (c :: (J' ++ gs " -->")) := hpre
    rw [List.cons_append, findSub_cons, if_neg hpre2, ih hJ']
    rfl

/-- C3: for every review summary whose head SHA is at least 7 bytes long
(so that building the comment body does not panic) and whose rendered
human-readable prefix does not itself contain the data-block marker,
the summary comment body built by `postSummary` (head-SHA marker line,
human-readable report, and trailing data block) is parsed back by
`parseSummaryFromComment` to exactly the original summary. -/
theorem claim3_summary_roundtrip (req : ReviewRequest) (S : ReviewSummary)
    (short : GoStr) (hshort : goSliceTo S.headSHA 7 = some short)
    (hmark : findSub (renderSummaryPrefix req S short ++ dataMarker) dataMarker
      = some (renderSummaryPrefix req S short).length) :
    renderSummaryBody req S =
      some (renderSummaryPrefix req S short ++ dataMarker ++
        encSummary S ++ gs " -->") ∧
    parseSummaryFromComment (renderSummaryPrefix req S short ++ dataMarker ++
      encSummary S ++ gs " -->") = Except.ok S := by
  constructor
  · simp only [renderSummaryBody, hshort, Option.map_some']
  · unfold parseSummaryFromComment
    simp only [List.append_assoc]
    rw [findSub_extend dataMarker (encSummary S ++ gs " -->") _ hmark]
    dsimp only
    rw [show renderSummaryPrefix req S short ++ (dataMarker ++
          (encSummary S ++ gs " -->")) =
        (renderSummaryPrefix req S short ++ dataMarker) ++
          (encSummary S ++ gs " -->") from
      (List.append_assoc _ _ _).symm]
    rw [show (renderSummaryPrefix req S short).length + dataMarker.length =
        (renderSummaryPrefix req S short ++ dataMarker).length from
      (List.length_append _ _).symm]
    rw [List.drop_left]
    rw [findSub_gt_marker (encSummary S) (gt_not_mem_encSummary S)]
    dsimp only
    rw [List.take_left]
    rw [decSummary_enc]

set_option maxRecDepth 10000 in
/-- Witness for C3 at a concrete request and summary. -/
theorem claim3_summary_roundtrip_witness :
    renderSummaryBody reqW sumW =
      some (renderSummaryPrefix reqW sumW (gs "abc123d") ++ dataMarker ++
        encSummary sumW ++ gs " -->") ∧
    parseSummaryFromComment (renderSummaryPrefix reqW sumW (gs "abc123d") ++
      dataMarker ++ encSummary sumW ++ gs " -->") = Except.ok sumW :=
  claim3_summary_roundtrip reqW sumW (gs "abc123d") (by decide) (by decide)

end Theorems
